import Mathlib

/-!
Shallow embedding of the granola-sync incremental synchronization core
(github.com/philrhinehart/granola-sync) and proofs about it.

Modelling conventions:
* Go `time.Time` instants are integers (nanoseconds); a `GoTime` value also
  carries the broken-down local representation that Go's `Format` calls read.
* The filesystem is a partial map from paths to file contents; `os.WriteFile`
  failures are injected through an oracle `writeFail` in the environment.
* The SQLite-backed state store is an association list keyed by document id.
* Strings are manipulated through structurally recursive helpers over
  `String.data` so that every definition evaluates inside the kernel.
-/

namespace GranolaSync

/-! ## Generic string helpers (models of the Go `strings` primitives used) -/

/-- `isPre pat l` is true iff `pat` is a prefix of `l`; model of byte-prefix
testing used to define substring containment. -/
def isPre : List Char → List Char → Bool
  | [], _ => true
  | _ :: _, [] => false
  | a :: as, b :: bs => a == b && isPre as bs

/-- `containsSub s pat` models Go `strings.Contains(s, pat)` on rune lists. -/
def containsSub : List Char → List Char → Bool
  | [], pat => isPre pat []
  | c :: rest, pat => isPre pat (c :: rest) || containsSub rest pat

/-- Model of Go `strings.Contains`. -/
def containsStr (s pat : String) : Bool :=
  containsSub s.data pat.data

/-- Number of (possibly overlapping) occurrences of `pat` in `s`, counted at
every start position; used to state the "exactly one occurrence" property. -/
def occCountSub : List Char → List Char → Nat
  | [], pat => if isPre pat [] then 1 else 0
  | c :: rest, pat => (if isPre pat (c :: rest) then 1 else 0) + occCountSub rest pat

/-- Occurrence count of `pat` in `s` as substrings. -/
def occCount (s pat : String) : Nat :=
  occCountSub s.data pat.data

/-- Model of Go `strings.Replace(s, old, new, 1)` for the rune lists. -/
def replaceFirstSub (s old new : List Char) : List Char :=
  match s with
  | [] => []
  | c :: rest =>
    if isPre old (c :: rest) then new ++ (c :: rest).drop old.length
    else c :: replaceFirstSub rest old new

/-- Model of Go `strings.Replace(s, old, new, 1)`. -/
def replaceFirst (s old new : String) : String :=
  String.mk (replaceFirstSub s.data old.data new.data)

/-- Model of Go `strings.Split(s, sep)` for a one-rune separator. -/
def splitOnChar (sep : Char) : List Char → List (List Char)
  | [] => [[]]
  | c :: rest =>
    if c = sep then [] :: splitOnChar sep rest
    else
      match splitOnChar sep rest with
      | [] => [[c]]
      | l :: ls => (c :: l) :: ls

/-- Split a string into its newline-separated lines, Go `strings.Split(s, "\n")`. -/
def splitLines (s : String) : List String :=
  (splitOnChar '\n' s.data).map String.mk

/-- Rejoin lines with newline separators (inverse of `splitLines`). -/
def joinLines : List String → String
  | [] => ""
  | [l] => l
  | l :: ls => l ++ "\n" ++ joinLines ls

/-- Model of Go `strings.TrimSuffix(s, "\n")`. -/
def trimNl (s : String) : String :=
  if s.data.getLast? = some '\n' then String.mk s.data.dropLast else s

/-- True iff the string ends in a newline, Go `strings.HasSuffix(s, "\n")`. -/
def endsNl (s : String) : Bool :=
  s.data.getLast? == some '\n'

/-- ASCII lower-casing, model of Go `strings.ToLower` on the inputs at hand. -/
def strToLower (s : String) : String :=
  String.mk (s.data.map Char.toLower)

/-- The whitespace class of Go's `unicode.IsSpace` restricted to ASCII,
as used by `strings.TrimSpace` and `strings.Fields`. -/
def isGoSpace (c : Char) : Bool :=
  c = ' ' || c = '\t' || c = '\n' || c = '\r' || c = '\u000B' || c = '\u000C'

/-- The whitespace class of the RE2 `\s` escape: `[\t\n\f\r ]`. -/
def isReSpace (c : Char) : Bool :=
  c = ' ' || c = '\t' || c = '\n' || c = '\u000C' || c = '\r'

/-- Model of Go `strings.TrimSpace`. -/
def trimSpaceStr (s : String) : String :=
  String.mk (((s.data.dropWhile isGoSpace).reverse.dropWhile isGoSpace).reverse)

/-- Model of Go `strings.TrimRight(s, " -")`. -/
def trimRightDashSpace (s : String) : String :=
  String.mk ((s.data.reverse.dropWhile (fun c => c = '-' || c = ' ')).reverse)

/-- Model of Go `strings.Trim(s, "- ")`. -/
def trimDashSpace (s : String) : String :=
  String.mk (((s.data.dropWhile (fun c => c = '-' || c = ' ')).reverse.dropWhile
    (fun c => c = '-' || c = ' ')).reverse)

/-- Model of Go `strings.Repeat("\t", n)`. -/
def tabs (n : Nat) : String :=
  String.mk (List.replicate n '\t')

/-- Decimal digit character. -/
def digitChar (n : Nat) : Char :=
  Char.ofNat (48 + n)

/-- Decimal rendering of a natural number (fuel-based so it evaluates in the
kernel); fuel is always sufficient because `n` shrinks by division by 10. -/
def natToStrAux : Nat → Nat → List Char
  | 0, _ => []
  | fuel + 1, n =>
    if n < 10 then [digitChar n]
    else natToStrAux fuel (n / 10) ++ [digitChar (n % 10)]

/-- Decimal rendering of a natural number, Go `%d` for non-negative values. -/
def natToStr (n : Nat) : String :=
  String.mk (natToStrAux (n + 1) n)

/-- Zero-pad a decimal rendering to two digits, the Go time layout tokens
`01`/`02`/`04`. -/
def pad2 (n : Nat) : String :=
  if n < 10 then "0" ++ natToStr n else natToStr n

/-- Zero-pad a decimal rendering to four digits, the Go time layout token
`2006`. -/
def pad4 (n : Nat) : String :=
  if n < 10 then "000" ++ natToStr n
  else if n < 100 then "00" ++ natToStr n
  else if n < 1000 then "0" ++ natToStr n
  else natToStr n

/-! ## Time model

A Go `time.Time` is modelled by its instant (nanoseconds, totally ordered)
together with the broken-down local-time fields that the `Format` layouts used
by the program read, plus the local zone abbreviation (`MST` layout token). -/

structure GoTime where
  instant : Int
  year : Nat
  month : Nat
  day : Nat
  hour : Nat
  minute : Nat
  tzAbbrev : String
deriving Repr, DecidableEq

/-- Go layout `2006-01-02`. -/
def formatDate (t : GoTime) : String :=
  pad4 t.year ++ "-" ++ pad2 t.month ++ "-" ++ pad2 t.day

/-- Go layout `2006_01_02`. -/
def formatJournalDate (t : GoTime) : String :=
  pad4 t.year ++ "_" ++ pad2 t.month ++ "_" ++ pad2 t.day

/-- Go layout `3:04 PM` (12-hour clock, unpadded hour). -/
def format12h (t : GoTime) : String :=
  let h12 := if t.hour % 12 = 0 then 12 else t.hour % 12
  natToStr h12 ++ ":" ++ pad2 t.minute ++ " " ++ (if t.hour ≥ 12 then "PM" else "AM")

/-! ## Change-detection store (internal/state/store.go)

The SQLite table `synced_documents` keyed by `id` is modelled as an
association list; `nil`-able timestamps are `Option Int`. -/

/-- `SyncedDocument` from internal/state/store.go. -/
structure SyncedDocument where
  id : String
  title : String
  syncedAt : Int
  granolaUpdatedAt : Option Int
  logseqPagePath : String
  contentHash : String
deriving Repr, DecidableEq

/-- The store contents: rows of the `synced_documents` table. -/
def StoreState := List SyncedDocument

/-- `Store.GetSyncedDocument` from internal/state/store.go: primary-key lookup,
`nil` when no row exists. -/
def GetSyncedDocument (st : StoreState) (id : String) : Option SyncedDocument :=
  List.find? (fun r => r.id == id) st

/-- `Store.MarkSynced` from internal/state/store.go: SQL upsert
(`INSERT ... ON CONFLICT(id) DO UPDATE SET` replacing every column). -/
def MarkSynced (st : StoreState) (doc : SyncedDocument) : StoreState :=
  doc :: List.filter (fun r => !(r.id == doc.id)) st

/-- `Store.NeedsUpdate` from internal/state/store.go. -/
def NeedsUpdate (st : StoreState) (id : String) (currentUpdatedAt : Int)
    (contentHash : String) : Bool :=
  match GetSyncedDocument st id with
  | none => true
  | some doc =>
    if doc.contentHash != contentHash then true
    else
      match doc.granolaUpdatedAt with
      | none => true
      | some u => if u != currentUpdatedAt then true else false

/-! ## Document model (internal/granola/document.go)

Optional pointer fields become `Option`; the raw `Notes`/`Overview` fields,
which the sync engine never reads, are omitted. `time.Parse(time.RFC3339, s)`
composed with `.Local()` depends on the runtime's timezone database, so it is
abstracted as a `parseLocal : String → Option GoTime` parameter threaded to
the functions that need it. -/

structure Attendee where
  email : String
  displayName : String
  responseStatus : String
  self : Bool
  organizer : Bool
deriving Repr, DecidableEq

structure EventTime where
  dateTime : String
  timeZone : String
deriving Repr, DecidableEq

structure GoogleCalendarEvent where
  id : String
  summary : String
  start : Option EventTime
  end_ : Option EventTime
  attendees : List Attendee
deriving Repr, DecidableEq

structure PersonName where
  fullName : String
  givenName : String
  familyName : String
deriving Repr, DecidableEq

structure PersonData where
  name : Option PersonName
  avatar : String
deriving Repr, DecidableEq

structure PersonDetails where
  person : Option PersonData
deriving Repr, DecidableEq

structure PersonInfo where
  name : String
  email : String
  details : Option PersonDetails
deriving Repr, DecidableEq

structure AttendeeInfo where
  name : String
  email : String
  details : Option PersonDetails
deriving Repr, DecidableEq

structure People where
  title : String
  creator : Option PersonInfo
  attendees : List AttendeeInfo
deriving Repr, DecidableEq

/-- `Document` from internal/granola/document.go. -/
structure Document where
  id : String
  title : String
  createdAt : GoTime
  updatedAt : Int
  deletedAt : Option Int
  type : String
  notesPlain : Option String
  notesMarkdown : Option String
  googleCalendarEvent : Option GoogleCalendarEvent
  people : Option People
deriving Repr, DecidableEq

/-- `Document.GetMeetingDate`: calendar start time when it parses, otherwise
the creation time. -/
def GetMeetingDate (parseLocal : String → Option GoTime) (d : Document) : GoTime :=
  match d.googleCalendarEvent with
  | some ev =>
    match ev.start with
    | some st =>
      match parseLocal st.dateTime with
      | some t => t
      | none => d.createdAt
    | none => d.createdAt
  | none => d.createdAt

/-- `Document.GetMeetingTimeRange`: 12-hour start/end plus the local zone
abbreviation, empty strings without a calendar event or on parse failure. -/
def GetMeetingTimeRange (parseLocal : String → Option GoTime) (d : Document) :
    String × String × String :=
  match d.googleCalendarEvent with
  | none => ("", "", "")
  | some ev =>
    let st :=
      match ev.start with
      | some s =>
        match parseLocal s.dateTime with
        | some t => (format12h t, t.tzAbbrev)
        | none => ("", "")
      | none => ("", "")
    let en :=
      match ev.end_ with
      | some e =>
        match parseLocal e.dateTime with
        | some t => format12h t
        | none => ""
      | none => ""
    (st.1, en, st.2)

/-- Prefix of the rune list before the first `'@'`; `none` when there is no
`'@'` at all. -/
def beforeAt : List Char → Option (List Char)
  | [] => none
  | c :: rest => if c = '@' then some [] else (beforeAt rest).map (c :: ·)

/-- The capitalization walk of `extractNameFromEmail`: delimiters become
spaces, and an ASCII lowercase letter right after a delimiter (or at the
start) is uppercased. -/
def capWalk : Bool → List Char → List Char
  | _, [] => []
  | capitalize, c :: rest =>
    if c = '.' || c = '_' || c = '-' then ' ' :: capWalk true rest
    else if capitalize && ('a' ≤ c && c ≤ 'z') then
      Char.ofNat (c.toNat - 32) :: capWalk false rest
    else c :: capWalk false rest

/-- `extractNameFromEmail` from internal/granola/document.go. -/
def extractNameFromEmail (email : String) : String :=
  match beforeAt email.data with
  | none => ""
  | some [] => ""
  | some localPart => String.mk (capWalk true localPart)

/-- The people-attendee loop of `GetAttendeeNames`: collects non-empty names
in first-occurrence order, preferring the nested detailed full name when the
direct name is empty. -/
def peopleNamesLoop : List AttendeeInfo → List String → List String
  | [], names => names
  | a :: rest, names =>
    let name :=
      if a.name == "" then
        match a.details with
        | some det =>
          match det.person with
          | some p =>
            match p.name with
            | some n => n.fullName
            | none => a.name
          | none => a.name
        | none => a.name
      else a.name
    if name != "" && !(names.contains name) then peopleNamesLoop rest (names ++ [name])
    else peopleNamesLoop rest names

/-- The calendar-attendee fallback loop of `GetAttendeeNames`. -/
def calendarNamesLoop : List Attendee → List String → List String
  | [], names => names
  | a :: rest, names =>
    let name := if a.displayName == "" then extractNameFromEmail a.email else a.displayName
    if name != "" && !(names.contains name) then calendarNamesLoop rest (names ++ [name])
    else calendarNamesLoop rest names

/-- `Document.GetAttendeeNames` from internal/granola/document.go. -/
def GetAttendeeNames (d : Document) : List String :=
  let names :=
    match d.people with
    | some p => peopleNamesLoop p.attendees []
    | none => []
  if names.isEmpty then
    match d.googleCalendarEvent with
    | some ev => calendarNamesLoop ev.attendees names
    | none => names
  else names

/-- `Document.IsDeleted`. -/
def IsDeleted (d : Document) : Bool :=
  d.deletedAt.isSome

/-- `Document.IsUserAttendee` from internal/granola/document.go. -/
def IsUserAttendee (d : Document) (userEmail : String) : Bool :=
  match d.googleCalendarEvent with
  | none =>
    if userEmail == "" then true
    else
      match d.people with
      | some p =>
        match p.creator with
        | some c => c.email == userEmail
        | none => true
      | none => true
  | some ev =>
    if userEmail == "" then ev.attendees.any (fun a => a.self)
    else ev.attendees.any (fun a => a.email == userEmail)

/-- The creator record reached through `d.People != nil && d.People.Creator != nil`. -/
def creatorOf (d : Document) : Option PersonInfo :=
  match d.people with
  | some p => p.creator
  | none => none

/-! ## Cache decoder (internal/granola/cache.go)

The dynamically typed rich-text tree (`interface{}` values) is modelled by a
tree `RVal`: a JSON object as seen by the walker (its `"type"` string, its
`"content"` array, its `"text"` string, each possibly absent or of the wrong
dynamic type, in which case the corresponding field is `none`), or any other
JSON value (`other`), which every type assertion in the walker rejects. -/

mutual

inductive RVal where
  | map (ty : Option String) (content : Option RList) (text : Option String)
  | other

inductive RList where
  | nil
  | cons (head : RVal) (tail : RList)

end

/-- The `nodeType, _ := nodeMap["type"].(string)` read: empty string when the
value is not a map or has no string `"type"` field. -/
def nodeTypeOf : RVal → String
  | .map ty _ _ => ty.getD ""
  | .other => ""

/-- The text-collecting loop of `extractTextFromNode` (string `"text"` fields
of the direct children, concatenated). -/
def textJoin : RList → String
  | .nil => ""
  | .cons c rest =>
    (match c with
     | .map _ _ (some t) => t
     | _ => "") ++ textJoin rest

/-- `extractTextFromNode` from internal/granola/cache.go. -/
def extractTextFromNode : RVal → String
  | .map _ (some l) _ => textJoin l
  | _ => ""

/-- `extractHeadingNode` from internal/granola/cache.go. -/
def extractHeadingNode (node : RVal) (indent : String) : String :=
  let text := extractTextFromNode node
  if text != "" then indent ++ "- **" ++ text ++ "**\n" else ""

/-- `extractParagraphNode` from internal/granola/cache.go. -/
def extractParagraphNode (node : RVal) (indent : String) : String :=
  let text := extractTextFromNode node
  if text != "" then indent ++ "- " ++ text ++ "\n" else ""

mutual

/-- `extractNodeToLogseq` from internal/granola/cache.go; the dispatch to
`extractListNode`/`extractListItemNode` is inlined down to the `"content"`
array so that the recursion is structural. -/
def extractNodeToLogseq (node : RVal) (depth : Nat) : String :=
  let indent := tabs depth
  match node with
  | .other => ""
  | .map ty content tx =>
    let nodeType := ty.getD ""
    if nodeType = "heading" then extractHeadingNode (.map ty content tx) indent
    else if nodeType = "paragraph" then extractParagraphNode (.map ty content tx) indent
    else if nodeType = "bulletList" || nodeType = "orderedList" then
      match content with
      | some l => extractListChildren l depth
      | none => ""
    else if nodeType = "listItem" then
      match content with
      | some l => extractListItemChildren l indent depth 0
      | none => ""
    else if nodeType = "text" then
      match tx with
      | some t => t
      | none => ""
    else ""

/-- The loop body of `extractListNode`: children rendered at the same depth. -/
def extractListChildren (l : RList) (depth : Nat) : String :=
  match l with
  | .nil => ""
  | .cons c rest => extractNodeToLogseq c depth ++ extractListChildren rest depth

/-- The indexed loop body of `extractListItemNode`: paragraph children become
bullet lines at the item's indent, nested lists are rendered one level deeper
with an empty-bullet placeholder when the nested list is the first child. -/
def extractListItemChildren (l : RList) (indent : String) (depth : Nat) (i : Nat) : String :=
  match l with
  | .nil => ""
  | .cons child rest =>
    (let childType := nodeTypeOf child
     if childType = "paragraph" then
       let text := extractTextFromNode child
       if text != "" then indent ++ "- " ++ text ++ "\n" else ""
     else if childType = "bulletList" || childType = "orderedList" then
       (if i = 0 then indent ++ "- \n" else "") ++ extractNodeToLogseq child (depth + 1)
     else "") ++ extractListItemChildren rest indent depth (i + 1)

end

/-- `extractListNode` from internal/granola/cache.go. -/
def extractListNode (node : RVal) (depth : Nat) : String :=
  match node with
  | .map _ (some l) _ => extractListChildren l depth
  | _ => ""

/-- `extractListItemNode` from internal/granola/cache.go. -/
def extractListItemNode (node : RVal) (indent : String) (depth : Nat) : String :=
  match node with
  | .map _ (some l) _ => extractListItemChildren l indent depth 0
  | _ => ""

/-- `extractMarkdownFromContent` from internal/granola/cache.go: the top-level
`"content"` array rendered at depth 0. -/
def extractMarkdownFromContent : RVal → String
  | .map _ (some l) _ => extractListChildren l 0
  | _ => ""

/-- `DocumentPanel` from internal/granola/cache.go; `Content interface{}` is
`none` exactly when the JSON value is `null`. -/
structure DocumentPanel where
  id : String
  documentId : String
  title : String
  content : Option RVal
  contentUpdatedAt : String

/-- The recovered markdown of a panel (empty for `nil` content). -/
def extractPanelMd (p : DocumentPanel) : String :=
  match p.content with
  | some v => extractMarkdownFromContent v
  | none => ""

/-- A panel the selection loop of `ParseCacheData` considers: titled
"Summary", non-`nil` content, non-empty recovered markdown. -/
def panelQualifies (p : DocumentPanel) : Bool :=
  p.title == "Summary" && p.content.isSome && extractPanelMd p != ""

/-- Go `<` on strings (lexicographic byte order; identical to rune order on
the ASCII timestamps compared here), on rune lists. -/
def strLtSub : List Char → List Char → Bool
  | [], [] => false
  | [], _ :: _ => true
  | _ :: _, [] => false
  | a :: as, b :: bs =>
    if a.toNat < b.toNat then true
    else if b.toNat < a.toNat then false
    else strLtSub as bs

/-- Go `<` on strings. -/
def strLtB (a b : String) : Bool :=
  strLtSub a.data b.data

/-- The Summary-panel selection loop of `ParseCacheData`, with the panels in
the map-iteration order of one run; the accumulator holds
`(bestContent, bestTimestamp)` (`none` iff `bestPanel == nil`), and a later
panel replaces it only when its `contentUpdatedAt` is strictly greater. -/
def selectPanelLoop : List DocumentPanel → Option (String × String) → Option (String × String)
  | [], best => best
  | p :: rest, best =>
    if p.title == "Summary" && p.content.isSome then
      let md := extractPanelMd p
      if md != "" then
        match best with
        | none => selectPanelLoop rest (some (md, p.contentUpdatedAt))
        | some (bc, bt) =>
          if strLtB bt p.contentUpdatedAt then
            selectPanelLoop rest (some (md, p.contentUpdatedAt))
          else selectPanelLoop rest (some (bc, bt))
      else selectPanelLoop rest best
    else selectPanelLoop rest best

/-- The `(bestContent, bestTimestamp)` pair `ParseCacheData` settles on for
one document, given its panels in iteration order. -/
def selectBestPanel (panels : List DocumentPanel) : Option (String × String) :=
  selectPanelLoop panels none

/-- The per-document notes injection of `ParseCacheData`: the selected
non-empty markdown (when any) overwrites the document's markdown notes. -/
def applyPanels (doc : Document) (panels : List DocumentPanel) : Document :=
  match selectBestPanel panels with
  | some (bc, _) => { doc with notesMarkdown := some bc }
  | none => doc

/-- Claim-side rendering of a single `listItem` child, written from the
spec's wording: a paragraph child with non-empty text is a bullet line at the
item's indent; a nested bullet/ordered list is rendered one indent level
deeper, preceded by an empty bullet placeholder when it is the first content
child; anything else renders as the empty string. -/
def listItemChildSpec (child : RVal) (depth : Nat) (isFirst : Bool) : String :=
  if nodeTypeOf child = "paragraph" then
    if extractTextFromNode child ≠ "" then
      tabs depth ++ "- " ++ extractTextFromNode child ++ "\n"
    else ""
  else if nodeTypeOf child = "bulletList" ∨ nodeTypeOf child = "orderedList" then
    (if isFirst then tabs depth ++ "- \n" else "") ++ extractNodeToLogseq child (depth + 1)
  else ""

/-- Claim-side concatenation of the rendered `listItem` children, tracking
which child is the first. -/
def listItemSpecJoin : RList → Nat → Nat → String
  | .nil, _, _ => ""
  | .cons c rest, depth, i =>
    listItemChildSpec c depth (i == 0) ++ listItemSpecJoin rest depth (i + 1)

/-- A rich-text body consisting of a single paragraph with the given text. -/
def paragraphBody (s : String) : RVal :=
  .map none
    (some (.cons (.map (some "paragraph")
      (some (.cons (.map none none (some s)) .nil)) none) .nil)) none

/-- A Summary panel with the given id, body text and timestamp. -/
def summaryPanel (id text ts : String) : DocumentPanel :=
  { id := id, documentId := "doc-1", title := "Summary",
    content := some (paragraphBody text), contentUpdatedAt := ts }

/-- A minimal concrete document used by concrete instances below. -/
def sampleDoc : Document :=
  { id := "doc-1", title := "T", createdAt := ⟨0, 2025, 1, 28, 10, 0, "UTC"⟩,
    updatedAt := 0, deletedAt := none, type := "meeting",
    notesPlain := none, notesMarkdown := none,
    googleCalendarEvent := none, people := none }

/-! ## Page/journal formatting (internal/logseq/format.go)

The Go regexps of `meetingTag`/`sanitizeTitle` are small deterministic
patterns (no backtracking beyond one digit of lookahead), reimplemented as a
leftmost scan with per-pattern matchers over rune lists. -/

/-- Go `strings.Join`. -/
def strIntercalate (sep : String) : List String → String
  | [] => ""
  | [a] => a
  | a :: rest => a ++ sep ++ strIntercalate sep rest

/-- Concatenation of a list of strings. -/
def strConcat : List String → String
  | [] => ""
  | s :: rest => s ++ strConcat rest

/-- Length of the leading run of RE2 whitespace (the greedy `\s*`). -/
def reSpaceCount : List Char → Nat
  | [] => 0
  | c :: rest => if isReSpace c then reSpaceCount rest + 1 else 0

/-- The RE2 word-character class `\w` used by the `\b` boundary. -/
def isWordChar (c : Char) : Bool :=
  ('0' ≤ c && c ≤ '9') || ('A' ≤ c && c ≤ 'Z') || ('a' ≤ c && c ≤ 'z') || c = '_'

/-- The weekday alternation of the `meetingTag` regexps (lowercase). -/
def dayNames : List String :=
  ["monday", "tuesday", "wednesday", "thursday", "friday", "saturday", "sunday"]

/-- Case-insensitive prefix test (the `(?i)` flag). -/
def isPreCI (pat s : List Char) : Bool :=
  isPre pat (s.map Char.toLower)

/-- Length of the weekday name matched case-insensitively at the front, if
any (the names are not prefixes of one another, so at most one matches). -/
def firstDayLen (s : List Char) : Option Nat :=
  dayNames.findSome? (fun d => if isPreCI d.data s then some d.data.length else none)

def isDigitCh (c : Char) : Bool := '0' ≤ c && c ≤ '9'

def isDateSep (c : Char) : Bool := c = '-' || c = '/'

/-- Remainder after exactly `n` leading decimal digits (`\d{n}`). -/
def takeDigits : Nat → List Char → Option (List Char)
  | 0, s => some s
  | n + 1, c :: rest => if isDigitCh c then takeDigits n rest else none
  | _ + 1, [] => none

/-- Matcher for `(?i)\s*\(\s*(monday|...|sunday)\s*\)`. -/
def matchParenDay (_prev : Option Char) (s : List Char) : Option Nat :=
  let k := reSpaceCount s
  match s.drop k with
  | '(' :: r2 =>
    let k2 := reSpaceCount r2
    match firstDayLen (r2.drop k2) with
    | some dlen =>
      let r4 := (r2.drop k2).drop dlen
      let k3 := reSpaceCount r4
      match r4.drop k3 with
      | ')' :: _ => some (k + 1 + k2 + dlen + k3 + 1)
      | _ => none
    | none => none
  | _ => none

/-- Matcher for the full-date pattern: RE whitespace, four digits, a dash-or-slash separator, two digits, a separator, two digits. -/
def matchFullDate (_prev : Option Char) (s : List Char) : Option Nat :=
  let k := reSpaceCount s
  match takeDigits 4 (s.drop k) with
  | some r1 =>
    match r1 with
    | sep :: r2 =>
      if isDateSep sep then
        match takeDigits 2 r2 with
        | some r3 =>
          match r3 with
          | sep2 :: r4 =>
            if isDateSep sep2 then
              match takeDigits 2 r4 with
              | some _ => some (k + 10)
              | none => none
            else none
          | [] => none
        | none => none
      else none
    | [] => none
  | none => none

/-- Matcher for the short-date pattern: RE whitespace, one or two digits (greedy, backtracking to a single digit when two digits are not followed by a dash-or-slash separator), a separator, one or two digits. -/
def matchShortDate (_prev : Option Char) (s : List Char) : Option Nat :=
  let k := reSpaceCount s
  let s1 := s.drop k
  let lead : Option Nat :=
    match s1 with
    | a :: b :: rest =>
      if isDigitCh a && isDigitCh b &&
          (match rest with | c :: _ => isDateSep c | [] => false) then some 2
      else if isDigitCh a && isDateSep b then some 1
      else none
    | _ => none
  match lead with
  | some dl =>
    match s1.drop (dl + 1) with
    | a :: b :: _ =>
      if isDigitCh a && isDigitCh b then some (k + dl + 1 + 2)
      else if isDigitCh a then some (k + dl + 1 + 1)
      else none
    | [a] => if isDigitCh a then some (k + dl + 1 + 1) else none
    | [] => none
  | none => none

/-- Matcher for `(?i)\b(monday|...|sunday)\b`; boundaries are evaluated
against the original input, so the character before the scan position is
threaded in. -/
def matchDayWord (prev : Option Char) (s : List Char) : Option Nat :=
  let boundaryBefore :=
    match prev with
    | none => true
    | some c => !(isWordChar c)
  if boundaryBefore then
    match firstDayLen s with
    | some dlen =>
      match s.drop dlen with
      | [] => some dlen
      | c :: _ => if isWordChar c then none else some dlen
    | none => none
  else none

/-- Matcher for `\(\s*\)`. -/
def matchEmptyParens (_prev : Option Char) (s : List Char) : Option Nat :=
  match s with
  | '(' :: r =>
    let k := reSpaceCount r
    match r.drop k with
    | ')' :: _ => some (1 + k + 1)
    | _ => none
  | _ => none

/-- Matcher for `\s+`. -/
def matchSpaceRun (_prev : Option Char) (s : List Char) : Option Nat :=
  let k := reSpaceCount s
  if k = 0 then none else some k

/-- Leftmost scan of `regexp.ReplaceAllString` for the matchers above: at
each position the matcher either consumes `n ≥ 1` runes (replaced by `repl`)
or the rune is copied; the fuel equals the input length, enough because every
step consumes at least one rune. -/
def regexReplaceAux (matcher : Option Char → List Char → Option Nat)
    (repl : List Char) : Nat → Option Char → List Char → List Char
  | 0, _, s => s
  | _ + 1, _, [] => []
  | fuel + 1, prev, c :: rest =>
    match matcher prev (c :: rest) with
    | some n =>
      if n = 0 then c :: regexReplaceAux matcher repl fuel (some c) rest
      else
        repl ++ regexReplaceAux matcher repl fuel
          (match ((c :: rest).take n).getLast? with
           | some x => some x
           | none => prev)
          ((c :: rest).drop n)
    | none => c :: regexReplaceAux matcher repl fuel (some c) rest

/-- `regexp.ReplaceAllString` for the deterministic patterns above. -/
def regexReplaceAll (matcher : Option Char → List Char → Option Nat)
    (repl : String) (s : String) : String :=
  String.mk (regexReplaceAux matcher repl.data s.data.length none s.data)

/-- `meetingTag` from internal/logseq/format.go: strips day references and
date patterns from a title to obtain a stable tag. -/
def meetingTag (title : String) : String :=
  if title == "" then ""
  else
    let tag := title
    let tag := regexReplaceAll matchParenDay "" tag
    let tag := regexReplaceAll matchFullDate "" tag
    let tag := regexReplaceAll matchShortDate "" tag
    let tag := regexReplaceAll matchDayWord "" tag
    let tag := regexReplaceAll matchEmptyParens "" tag
    let tag := trimSpaceStr tag
    let tag := regexReplaceAll matchSpaceRun " " tag
    trimRightDashSpace tag

/-- The character class `[/\\:*?"<>|]` of `sanitizeTitle`. -/
def unsafeChar (c : Char) : Bool :=
  c = '/' || c = '\\' || c = ':' || c = '*' || c = '?' || c = '"' ||
    c = '<' || c = '>' || c = '|'

/-- Collapse runs of dashes to a single dash (the `-+` → `-` replace). -/
def collapseDashAux : Bool → List Char → List Char
  | _, [] => []
  | prevDash, c :: rest =>
    if c = '-' then
      if prevDash then collapseDashAux true rest
      else '-' :: collapseDashAux true rest
    else c :: collapseDashAux false rest

/-- `sanitizeTitle` from internal/logseq/format.go. -/
def sanitizeTitle (title : String) : String :=
  trimDashSpace
    (String.mk (collapseDashAux false
      (title.data.map (fun c => if unsafeChar c then '-' else c))))

/-- `shortTimezone` from internal/logseq/format.go. -/
def shortTimezone (tz : String) : String :=
  if tz == "America/Los_Angeles" then "PST"
  else if tz == "America/New_York" then "EST"
  else if tz == "America/Chicago" then "CST"
  else if tz == "America/Denver" then "MST"
  else if tz == "Europe/London" then "GMT"
  else if tz == "UTC" then "UTC"
  else
    match (splitOnChar '/' tz.data).getLast? with
    | some l => String.mk l
    | none => tz

/-- The line loop of `convertPlainTextToLogseq`. -/
def convertPlainLoop : List String → String
  | [] => ""
  | line :: rest =>
    let trimmed := trimSpaceStr line
    (if trimmed == "" then "" else "\t\t- " ++ trimmed ++ "\n") ++ convertPlainLoop rest

/-- `convertPlainTextToLogseq` from internal/logseq/format.go. -/
def convertPlainTextToLogseq (text : String) : String :=
  convertPlainLoop (splitLines text)

/-- The line loop of `indentLogseqContent`. -/
def indentLoop (indent : String) : List String → String
  | [] => ""
  | line :: rest =>
    (if line == "" then "" else indent ++ line ++ "\n") ++ indentLoop indent rest

/-- `indentLogseqContent` from internal/logseq/format.go. -/
def indentLogseqContent (content : String) (baseIndent : Nat) : String :=
  indentLoop (tabs baseIndent) (splitLines content)

/-- `todoSectionNames` from internal/logseq/format.go. -/
def todoSectionNames : List String :=
  ["Action Items", "Next Steps", "Immediate Tasks", "To Do", "To-Do", "TODO",
   "Tasks", "Follow-ups", "Follow Ups", "Followups"]

/-- `isTodoSectionHeader` from internal/logseq/format.go: case-insensitive
containment of a known header phrase, on a line carrying bold emphasis. -/
def isTodoSectionHeader (line : String) : Bool :=
  todoSectionNames.any (fun name =>
    containsStr (strToLower line) (strToLower name) && containsStr line "**")

/-- The line loop of `MarkUserTodos`, emitting each (possibly rewritten) line
with a trailing newline and threading the in-section flag exactly as the Go
loop does. -/
def markLoop (u : String) : List String → Bool → String
  | [], _ => ""
  | line :: rest, inActionItems =>
    if isTodoSectionHeader line then line ++ "\n" ++ markLoop u rest true
    else
      let ins1 :=
        if inActionItems && containsStr line "**" && !isTodoSectionHeader line then false
        else inActionItems
      let line1 :=
        if ins1 && containsStr line ("- " ++ u ++ ":") then
          replaceFirst line ("- " ++ u ++ ":") ("- TODO " ++ u ++ ":")
        else line
      line1 ++ "\n" ++ markLoop u rest ins1

/-- `MarkUserTodos` from internal/logseq/format.go. -/
def MarkUserTodos (content userName : String) : String :=
  if userName == "" then content
  else trimNl (markLoop userName (splitLines content) false)

/-- Claim-side marking state machine, written from the (amended) spec
wording: a recognized header opens a section; inside a section, a line
carrying bold emphasis that is not itself a header closes it and is left
alone; any other in-section line containing "- userName:" has its first such
occurrence rewritten to "- TODO userName:". -/
def markSpecLines (u : String) : List String → Bool → List String
  | [], _ => []
  | line :: rest, ins =>
    if isTodoSectionHeader line then line :: markSpecLines u rest true
    else
      let ins' := ins && !(containsStr line "**")
      let line' :=
        if ins' && containsStr line ("- " ++ u ++ ":") then
          replaceFirst line ("- " ++ u ++ ":") ("- TODO " ++ u ++ ":")
        else line
      line' :: markSpecLines u rest ins'

/-- Claim-side `MarkUserTodos`: empty user name passes the content through,
otherwise the marked lines are rejoined with newlines. -/
def MarkUserTodosSpec (content userName : String) : String :=
  if userName = "" then content
  else joinLines (markSpecLines userName (splitLines content) false)

/-- `GetPageFilename` from internal/logseq/format.go. -/
def GetPageFilename (parseLocal : String → Option GoTime) (doc : Document) : String :=
  "meetings___" ++ formatDate (GetMeetingDate parseLocal doc) ++ " " ++
    sanitizeTitle doc.title ++ ".md"

/-- `GetJournalFilename` from internal/logseq/format.go. -/
def GetJournalFilename (parseLocal : String → Option GoTime) (doc : Document) : String :=
  formatJournalDate (GetMeetingDate parseLocal doc) ++ ".md"

/-- Modelled from the spec: `GetPageName` is called by
internal/logseq/writer.go but its definition is not among the sources.
Per §4.4 the journal duplicate check scans for "the page's unique reference
string", which is the page name `FormatJournalEntry` links to:
`meetings/<date> <sanitized title>`. -/
def GetPageName (parseLocal : String → Option GoTime) (doc : Document) : String :=
  "meetings/" ++ formatDate (GetMeetingDate parseLocal doc) ++ " " ++
    sanitizeTitle doc.title

/-- `FormatJournalEntry` from internal/logseq/format.go. -/
def FormatJournalEntry (parseLocal : String → Option GoTime) (doc : Document) : String :=
  let tr := GetMeetingTimeRange parseLocal doc
  let startTime := tr.1
  let endTime := tr.2.1
  let tz := tr.2.2
  let attendees := GetAttendeeNames doc
  let pageName := GetPageName parseLocal doc
  let details : List String :=
    (if startTime != "" && endTime != "" then
      [startTime ++ " - " ++ endTime ++
        (if tz != "" then " (" ++ shortTimezone tz ++ ")" else "")]
    else []) ++
    (if attendees.isEmpty then []
     else ["with " ++ strIntercalate ", "
        (attendees.map (fun n => "[[@" ++ n ++ "]]"))])
  "- [[" ++ pageName ++ "]]\n" ++
    (if details.isEmpty then "" else "\t- " ++ strIntercalate " " details ++ "\n")

/-- `FormatMeetingPage` from internal/logseq/format.go. -/
def FormatMeetingPage (parseLocal : String → Option GoTime) (doc : Document) : String :=
  let dateStr := formatDate (GetMeetingDate parseLocal doc)
  let tr := GetMeetingTimeRange parseLocal doc
  let startTime := tr.1
  let endTime := tr.2.1
  let tz := tr.2.2
  let attendees := GetAttendeeNames doc
  let tags := ["Granola Notes"] ++
    (if meetingTag doc.title != "" then [meetingTag doc.title] else [])
  "- " ++ doc.title ++ "\n" ++
    "  meeting-date:: [[" ++ dateStr ++ "]]\n" ++
    (if startTime != "" && endTime != "" then
      "  meeting-time:: " ++ startTime ++ " - " ++ endTime ++
        (if tz != "" then " (" ++ shortTimezone tz ++ ")" else "") ++ "\n"
    else "") ++
    "  granola-id:: " ++ doc.id ++ "\n" ++
    "  tags:: " ++ strIntercalate ", " (tags.map (fun t => "[[" ++ t ++ "]]")) ++ "\n" ++
    (if attendees.isEmpty then ""
     else "\t- **Attendees**\n" ++
       strConcat (attendees.map (fun name => "\t\t- [[@" ++ name ++ "]]\n"))) ++
    "\t- **Notes**\n" ++
    (if (match doc.notesMarkdown with | some md => md != "" | none => false) then
      indentLogseqContent (doc.notesMarkdown.getD "") 2
    else if (match doc.notesPlain with | some p => p != "" | none => false) then
      convertPlainTextToLogseq (doc.notesPlain.getD "")
    else "\t\t- (No notes taken)\n")

/-! ## Output writer (internal/logseq/writer.go)

The filesystem is a partial map from paths to contents; `filepath.Join` on
the clean relative components used here is modelled by `/`-concatenation.
`os.WriteFile` failures come from the `writeFail` oracle of the environment;
`os.ReadFile` of a missing path is the `none` case (the only read failure in
the pure model, which both callers treat as an empty/absent file). -/

def FS := String → Option String

/-- Point update of the filesystem, the effect of a successful `os.WriteFile`. -/
def updateFs (fs : FS) (path content : String) : FS :=
  fun p => if p = path then some content else fs p

/-- The empty filesystem. -/
def emptyFs : FS := fun _ => none

/-- The ambient environment of the writer and the orchestrator: the
configuration values they read, `time.Now()`, the timezone-dependent
timestamp parser, and the write-failure oracle. -/
structure Env where
  basePath : String
  userName : String
  userEmail : String
  now : Int
  parseLocal : String → Option GoTime
  writeFail : String → Bool

/-- `os.WriteFile` against the oracle. -/
def osWriteFile (env : Env) (fs : FS) (path content : String) : Except String FS :=
  if env.writeFail path then .error "write error"
  else .ok (updateFs fs path content)

/-- `Writer.WriteMeetingPage` from internal/logseq/writer.go. -/
def WriteMeetingPage (env : Env) (fs : FS) (doc : Document) :
    Except String (String × FS) :=
  let pagePath := env.basePath ++ "/pages/" ++ GetPageFilename env.parseLocal doc
  let content := MarkUserTodos (FormatMeetingPage env.parseLocal doc) env.userName
  match osWriteFile env fs pagePath content with
  | .error e => .error ("writing meeting page: " ++ e)
  | .ok fs1 => .ok (pagePath, fs1)

/-- `Writer.AppendJournalEntry` from internal/logseq/writer.go. -/
def AppendJournalEntry (env : Env) (fs : FS) (doc : Document) :
    Except String (Bool × FS) :=
  let journalPath := env.basePath ++ "/journals/" ++ GetJournalFilename env.parseLocal doc
  let existing := (fs journalPath).getD ""
  if containsStr existing (GetPageName env.parseLocal doc) then .ok (false, fs)
  else
    let entry := FormatJournalEntry env.parseLocal doc
    let newContent :=
      if existing = "" then entry
      else if !(endsNl existing) then existing ++ "\n" ++ entry
      else existing ++ entry
    match osWriteFile env fs journalPath newContent with
    | .error e => .error ("writing journal: " ++ e)
    | .ok fs1 => .ok (true, fs1)

/-- `Writer.DryRunMeetingPage` from internal/logseq/writer.go. -/
def DryRunMeetingPage (env : Env) (doc : Document) : String × String :=
  (env.basePath ++ "/pages/" ++ GetPageFilename env.parseLocal doc,
   MarkUserTodos (FormatMeetingPage env.parseLocal doc) env.userName)

/-- `Writer.DryRunJournalEntry` from internal/logseq/writer.go. -/
def DryRunJournalEntry (env : Env) (fs : FS) (doc : Document) :
    String × String × Bool :=
  let journalPath := env.basePath ++ "/journals/" ++ GetJournalFilename env.parseLocal doc
  match fs journalPath with
  | some existing =>
    if containsStr existing (GetPageName env.parseLocal doc) then (journalPath, "", false)
    else (journalPath, FormatJournalEntry env.parseLocal doc, true)
  | none => (journalPath, FormatJournalEntry env.parseLocal doc, true)

/-- The added-flag of a writer result (`none` when the call errored). -/
def appendResultAdded (r : Except String (Bool × FS)) : Option Bool :=
  match r with
  | .ok (b, _) => some b
  | .error _ => none

/-- The filesystem after a writer call (`fallback` when the call errored). -/
def appendResultFs (r : Except String (Bool × FS)) (fallback : FS) : FS :=
  match r with
  | .ok (_, f) => f
  | .error _ => fallback

/-! ## Sync orchestrator (internal/sync/syncer.go) -/

/-- `SyncResult` from internal/sync/syncer.go. -/
structure SyncResult where
  newMeetings : Nat
  updatedMeetings : Nat
  newJournals : Nat
  errors : List String
deriving Repr, DecidableEq

/-- The mutable world a sync pass acts on: output filesystem, state store,
and the accumulating result. -/
structure SyncState where
  fs : FS
  store : StoreState
  result : SyncResult

/-- `hashContent` from internal/sync/syncer.go: the SHA-256 digest over
title, then markdown notes if present, then plain notes if present. The
digest is modelled by the digested byte string itself — a deterministic
function of exactly the same inputs, which is all the claims rely on. -/
def hashContent (doc : Document) : String :=
  doc.title ++
    (match doc.notesMarkdown with | some s => s | none => "") ++
    (match doc.notesPlain with | some s => s | none => "")

/-- `Syncer.dryRunDocument` from internal/sync/syncer.go (its terminal output
is not part of the modelled state). -/
def dryRunDocument (env : Env) (doc : Document) (isNew : Bool) (st : SyncState) :
    Option String × SyncState :=
  let wouldAddJournal := (DryRunJournalEntry env st.fs doc).2.2
  let result1 :=
    if isNew then { st.result with newMeetings := st.result.newMeetings + 1 }
    else { st.result with updatedMeetings := st.result.updatedMeetings + 1 }
  let result2 :=
    if wouldAddJournal then { result1 with newJournals := result1.newJournals + 1 }
    else result1
  (none, { st with result := result2 })

/-- `Syncer.syncDocument` from internal/sync/syncer.go: page write, journal
append only for new documents, then the unconditional store upsert; on a
failure the error is returned together with the partial effects already
applied. -/
def syncDocument (env : Env) (doc : Document) (contentHash : String)
    (isNew : Bool) (st : SyncState) : Option String × SyncState :=
  match WriteMeetingPage env st.fs doc with
  | .error e => (some ("writing meeting page: " ++ e), st)
  | .ok (pagePath, fs1) =>
    let result1 :=
      if isNew then { st.result with newMeetings := st.result.newMeetings + 1 }
      else { st.result with updatedMeetings := st.result.updatedMeetings + 1 }
    let syncedDoc : SyncedDocument :=
      { id := doc.id, title := doc.title, syncedAt := env.now,
        granolaUpdatedAt := some doc.updatedAt, logseqPagePath := pagePath,
        contentHash := contentHash }
    if isNew then
      match AppendJournalEntry env fs1 doc with
      | .error e => (some ("appending journal entry: " ++ e), ⟨fs1, st.store, result1⟩)
      | .ok (added, fs2) =>
        let result2 :=
          if added then { result1 with newJournals := result1.newJournals + 1 }
          else result1
        (none, ⟨fs2, MarkSynced st.store syncedDoc, result2⟩)
    else (none, ⟨fs1, MarkSynced st.store syncedDoc, result1⟩)

/-- `Syncer.processDocument` from internal/sync/syncer.go: the filter chain
(deleted, attendance, minimum age on live runs, since cutoff), the
`NeedsUpdate` consultation, the new-vs-update classification by record
existence, then the dry-run or live path. -/
def processDocument (env : Env) (since : Option Int) (minAge : Int)
    (dryRun : Bool) (doc : Document) (st : SyncState) : Option String × SyncState :=
  if IsDeleted doc then (none, st)
  else if !(IsUserAttendee doc env.userEmail) then (none, st)
  else if !dryRun && decide (env.now - doc.updatedAt < minAge) then (none, st)
  else if (match since with
           | some s => decide ((GetMeetingDate env.parseLocal doc).instant < s)
           | none => false) then (none, st)
  else
    let contentHash := hashContent doc
    if !(NeedsUpdate st.store doc.id doc.updatedAt contentHash) then (none, st)
    else
      let isNew := (GetSyncedDocument st.store doc.id).isNone
      if dryRun then dryRunDocument env doc isNew st
      else syncDocument env doc contentHash isNew st

/-- The per-document step of the `Sync` loop: a `processDocument` error is
wrapped as `doc <id>: <err>` and appended to the error list, and the loop
continues from the state the failing call reached. -/
def processStep (env : Env) (since : Option Int) (minAge : Int) (dryRun : Bool)
    (st : SyncState) (doc : Document) : SyncState :=
  match processDocument env since minAge dryRun doc st with
  | (some e, st1) =>
    { st1 with result :=
        { st1.result with errors := st1.result.errors ++ ["doc " ++ doc.id ++ ": " ++ e] } }
  | (none, st1) => st1

/-- The document loop of `Syncer.Sync`. -/
def processAll (env : Env) (since : Option Int) (minAge : Int) (dryRun : Bool)
    (docs : List Document) (st : SyncState) : SyncState :=
  docs.foldl (processStep env since minAge dryRun) st

/-- Insertion into a meeting-date-sorted list. -/
def insertByDate (parseLocal : String → Option GoTime) (d : Document) :
    List Document → List Document
  | [] => [d]
  | e :: rest =>
    if decide ((GetMeetingDate parseLocal d).instant <
        (GetMeetingDate parseLocal e).instant) then d :: e :: rest
    else e :: insertByDate parseLocal d rest

/-- `sortDocumentsByDate` from internal/sync/syncer.go: the `sort.Slice` by
meeting date, modelled as an insertion sort on the same key (the Go sort is
unstable, so any date-ordered arrangement is a faithful outcome). -/
def sortDocumentsByDate (parseLocal : String → Option GoTime)
    (docs : List Document) : List Document :=
  docs.foldr (insertByDate parseLocal) []

/-- `time.Duration(cfg.MinAgeSeconds) * time.Second` in nanoseconds. -/
def minAgeNanos (minAgeSeconds : Int) : Int :=
  minAgeSeconds * 1000000000

/-- `Syncer.Sync` from internal/sync/syncer.go. The `granola.ParseCache`
stage (file read plus the double JSON decode, whose panel-selection step is
modelled separately above) is abstracted as the `parsed` outcome handed in:
on a decode error the call aborts with the wrapped error and no document is
processed; otherwise every document is processed in meeting-date order and
the call returns the result summary. -/
def Sync (parsed : Except String (List Document)) (env : Env)
    (minAgeSeconds : Int) (since : Option Int) (dryRun : Bool) (st : SyncState) :
    Except String SyncResult × SyncState :=
  match parsed with
  | .error e => (.error ("parsing cache: " ++ e), st)
  | .ok docs =>
    let minAge := minAgeNanos minAgeSeconds
    let sorted := sortDocumentsByDate env.parseLocal docs
    let st1 := processAll env since minAge dryRun sorted st
    (.ok st1.result, st1)

/-- A failure-free environment with trivial parsing, for concrete instances. -/
def plainEnv : Env :=
  { basePath := "/kb", userName := "", userEmail := "", now := 0,
    parseLocal := fun _ => none, writeFail := fun _ => false }

/-- Concrete document whose sole people-attendee name equals its own journal
page name, so the formatted journal entry embeds the page-name string twice. -/
def selfRefDoc : Document :=
  { id := "doc-2", title := "T", createdAt := ⟨0, 2025, 1, 28, 10, 0, "UTC"⟩,
    updatedAt := 0, deletedAt := none, type := "meeting",
    notesPlain := none, notesMarkdown := none, googleCalendarEvent := none,
    people := some ⟨"", none, [⟨"meetings/2025-01-28 T", "", none⟩]⟩ }

/-- Concrete document "Team Standup Extra" (its page name has the page name
of `shortTitleDoc` as a proper substring). -/
def longTitleDoc : Document :=
  { id := "doc-a", title := "Team Standup Extra",
    createdAt := ⟨0, 2025, 1, 28, 10, 0, "UTC"⟩,
    updatedAt := 0, deletedAt := none, type := "meeting",
    notesPlain := none, notesMarkdown := none,
    googleCalendarEvent := none, people := none }

/-- Concrete document "Team Standup" with the same meeting date as
`longTitleDoc`. -/
def shortTitleDoc : Document :=
  { id := "doc-b", title := "Team Standup",
    createdAt := ⟨0, 2025, 1, 28, 10, 0, "UTC"⟩,
    updatedAt := 0, deletedAt := none, type := "meeting",
    notesPlain := none, notesMarkdown := none,
    googleCalendarEvent := none, people := none }

/-- The journal filesystem after appending `longTitleDoc`'s entry to the
empty filesystem. -/
def fsAfterLong : FS :=
  appendResultFs (AppendJournalEntry plainEnv emptyFs longTitleDoc) emptyFs

end GranolaSync

namespace GranolaSync

theorem isPre_self_append (p r : List Char) : isPre p (p ++ r) = true := by
  induction p with
  | nil => rfl
  | cons a as ih => simp [isPre, ih]

theorem containsSub_of_isPre {s pat : List Char} (h : isPre pat s = true) :
    containsSub s pat = true := by
  cases s with
  | nil => simpa [containsSub] using h
  | cons c rest => simp [containsSub, h]

theorem containsSub_cons (c : Char) (rest pat : List Char) :
    containsSub (c :: rest) pat = (isPre pat (c :: rest) || containsSub rest pat) :=
  rfl

theorem containsSub_append_right {s pat : List Char} (a : List Char)
    (h : containsSub s pat = true) : containsSub (a ++ s) pat = true := by
  induction a with
  | nil => simpa using h
  | cons c cs ih =>
    rw [List.cons_append, containsSub_cons, ih, Bool.or_true]

theorem containsStr_middle (a s b : String) :
    containsStr (a ++ (s ++ b)) s = true := by
  show containsSub (a ++ (s ++ b)).data s.data = true
  have hdata : (a ++ (s ++ b)).data = a.data ++ (s.data ++ b.data) := rfl
  rw [hdata]
  exact containsSub_append_right a.data
    (containsSub_of_isPre (isPre_self_append s.data b.data))

/-- Helper: the upsert makes the fresh row the one that lookups find. -/
theorem GetSyncedDocument_MarkSynced_self (st : StoreState) (doc : SyncedDocument) :
    GetSyncedDocument (MarkSynced st doc) doc.id = some doc := by
  simp [GetSyncedDocument, MarkSynced, List.find?]

/-- C1. `NeedsUpdate(id, sourceUpdatedAt, contentHash)` is true when no record
exists for `id`, true when the stored content hash differs from the supplied
hash, true when the stored source-updated timestamp is absent or differs from
the supplied one, and false otherwise; consequently it is true on first sight
of an id (empty store) and false on an immediate second call with identical
timestamp and hash right after `MarkSynced` recorded them. -/
theorem needsUpdate_characterization :
    (∀ (st : StoreState) (id : String) (t : Int) (h : String),
      (GetSyncedDocument st id = none → NeedsUpdate st id t h = true) ∧
      (∀ r, GetSyncedDocument st id = some r → r.contentHash ≠ h →
        NeedsUpdate st id t h = true) ∧
      (∀ r, GetSyncedDocument st id = some r → r.granolaUpdatedAt ≠ some t →
        NeedsUpdate st id t h = true) ∧
      (∀ r, GetSyncedDocument st id = some r → r.contentHash = h →
        r.granolaUpdatedAt = some t → NeedsUpdate st id t h = false)) ∧
    (∀ (id : String) (t : Int) (h : String),
      NeedsUpdate ([] : StoreState) id t h = true) ∧
    (∀ (st : StoreState) (id title path : String) (syncedAt t : Int) (h : String),
      NeedsUpdate
        (MarkSynced st ⟨id, title, syncedAt, some t, path, h⟩) id t h = false) := by
  refine ⟨fun st id t h => ⟨?_, ?_, ?_, ?_⟩, ?_, ?_⟩
  · intro hnone
    simp [NeedsUpdate, hnone]
  · intro r hr hneq
    simp only [NeedsUpdate, hr]
    simp [bne_iff_ne, hneq]
  · intro r hr hneq
    simp only [NeedsUpdate, hr]
    cases hu : r.granolaUpdatedAt with
    | none => simp
    | some u =>
      have : u ≠ t := fun huu => hneq (huu ▸ hu)
      simp [bne_iff_ne, this]
  · intro r hr hhash hupd
    simp only [NeedsUpdate, hr, hupd]
    simp [bne_iff_ne, hhash]
  · intro id t h
    simp [NeedsUpdate, GetSyncedDocument]
  · intro st id title path syncedAt t h
    have hget := GetSyncedDocument_MarkSynced_self st ⟨id, title, syncedAt, some t, path, h⟩
    simp only [NeedsUpdate, hget]
    simp

/-- Witness for C1: a concrete id is new on first sight and clean right after
`MarkSynced` with the same timestamp and hash. -/
theorem needsUpdate_characterization_witness :
    NeedsUpdate ([] : StoreState) "doc-1" 5 "hash-a" = true ∧
    NeedsUpdate (MarkSynced [] ⟨"doc-1", "T", 9, some 5, "p", "hash-a"⟩)
      "doc-1" 5 "hash-a" = false ∧
    (GetSyncedDocument ([⟨"doc-1", "T", 9, some 5, "p", "hash-b"⟩] : StoreState)
        "doc-1" = some ⟨"doc-1", "T", 9, some 5, "p", "hash-b"⟩ ∧
      NeedsUpdate ([⟨"doc-1", "T", 9, some 5, "p", "hash-b"⟩] : StoreState)
        "doc-1" 5 "hash-a" = true) :=
  ⟨needsUpdate_characterization.2.1 "doc-1" 5 "hash-a",
   needsUpdate_characterization.2.2 [] "doc-1" "T" "p" 9 5 "hash-a",
   by decide,
   (needsUpdate_characterization.1 [⟨"doc-1", "T", 9, some 5, "p", "hash-b"⟩]
      "doc-1" 5 "hash-a").2.1 ⟨"doc-1", "T", 9, some 5, "p", "hash-b"⟩
      (by decide) (by decide)⟩

/-- C6. `IsUserAttendee(email)`: with no calendar event it is true exactly when
the email is empty, or the recorded creator's email equals it, or no creator
info exists (the permissive default); with a calendar event and an empty email
it is true iff some attendee carries the self (organizer/self) flag, and with
a non-empty email it is true iff some attendee's email equals it exactly
(case-sensitive string equality). -/
theorem isUserAttendee_characterization :
    (∀ (d : Document) (email : String), d.googleCalendarEvent = none →
      (IsUserAttendee d email = true ↔
        (email = "" ∨ (∃ c, creatorOf d = some c ∧ c.email = email) ∨
          creatorOf d = none))) ∧
    (∀ (d : Document) (email : String) (ev : GoogleCalendarEvent),
      d.googleCalendarEvent = some ev →
      (email = "" →
        (IsUserAttendee d email = true ↔ ∃ a ∈ ev.attendees, a.self = true)) ∧
      (email ≠ "" →
        (IsUserAttendee d email = true ↔ ∃ a ∈ ev.attendees, a.email = email))) := by
  constructor
  · intro d email hnone
    simp only [IsUserAttendee, hnone]
    by_cases he : email = ""
    · simp [he]
    · have hbe : (email == "") = false := by
        simpa [beq_iff_eq] using he
      simp only [hbe, Bool.false_eq_true, if_false]
      cases hp : d.people with
      | none => simp [creatorOf, hp, he]
      | some p =>
        cases hc : p.creator with
        | none => simp [creatorOf, hp, hc, he]
        | some c =>
          have hco : creatorOf d = some c := by simp [creatorOf, hp, hc]
          rw [hco]
          simp [hc, he, beq_iff_eq]
  · intro d email ev hev
    simp only [IsUserAttendee, hev]
    constructor
    · intro he
      simp [he, List.any_eq_true]
    · intro he
      have hbe : (email == "") = false := by
        simpa [beq_iff_eq] using he
      simp [hbe, List.any_eq_true, beq_iff_eq]

/-- Witness for C6: concrete documents exercising the no-calendar branch
(creator match) and the calendar branch (exact attendee-email match). -/
theorem isUserAttendee_characterization_witness :
    (IsUserAttendee
        { id := "d1", title := "T", createdAt := ⟨0, 2025, 1, 28, 10, 0, "UTC"⟩,
          updatedAt := 0, deletedAt := none, type := "meeting",
          notesPlain := none, notesMarkdown := none,
          googleCalendarEvent := none,
          people := some { title := "", creator := some { name := "A", email := "a@x.io", details := none }, attendees := [] } }
        "a@x.io" = true ↔
      ("a@x.io" = "" ∨
        (∃ c, creatorOf
            { id := "d1", title := "T", createdAt := ⟨0, 2025, 1, 28, 10, 0, "UTC"⟩,
              updatedAt := 0, deletedAt := none, type := "meeting",
              notesPlain := none, notesMarkdown := none,
              googleCalendarEvent := none,
              people := some { title := "", creator := some { name := "A", email := "a@x.io", details := none }, attendees := [] } } = some c ∧
          c.email = "a@x.io") ∨
        creatorOf
            { id := "d1", title := "T", createdAt := ⟨0, 2025, 1, 28, 10, 0, "UTC"⟩,
              updatedAt := 0, deletedAt := none, type := "meeting",
              notesPlain := none, notesMarkdown := none,
              googleCalendarEvent := none,
              people := some { title := "", creator := some { name := "A", email := "a@x.io", details := none }, attendees := [] } } = none)) ∧
    (IsUserAttendee
        { id := "d2", title := "T", createdAt := ⟨0, 2025, 1, 28, 10, 0, "UTC"⟩,
          updatedAt := 0, deletedAt := none, type := "meeting",
          notesPlain := none, notesMarkdown := none,
          googleCalendarEvent := some
            { id := "e", summary := "T", start := none, end_ := none,
              attendees := [{ email := "b@x.io", displayName := "B", responseStatus := "", self := false, organizer := true }] },
          people := none }
        "b@x.io" = true ↔
      ∃ a ∈ ({ email := "b@x.io", displayName := "B", responseStatus := "", self := false, organizer := true } :
          Attendee) :: [], a.email = "b@x.io") :=
  ⟨isUserAttendee_characterization.1 _ "a@x.io" rfl,
   (isUserAttendee_characterization.2 _ "b@x.io" _ rfl).2 (by decide)⟩

/-! ### Lexicographic string order lemmas (Go `<` on the timestamps) -/

theorem strLtSub_irrefl : ∀ s : List Char, strLtSub s s = false
  | [] => rfl
  | c :: rest => by simp [strLtSub, Nat.lt_irrefl, strLtSub_irrefl rest]

theorem strLtSub_trans (a : List Char) : ∀ b c, strLtSub a b = true →
    strLtSub b c = true → strLtSub a c = true := by
  induction a with
  | nil =>
    intro b c hab hbc
    cases b with
    | nil => simp [strLtSub] at hab
    | cons y ys =>
      cases c with
      | nil => simp [strLtSub] at hbc
      | cons z zs => simp [strLtSub]
  | cons x xs ih =>
    intro b c hab hbc
    cases b with
    | nil => simp [strLtSub] at hab
    | cons y ys =>
      cases c with
      | nil => simp [strLtSub] at hbc
      | cons z zs =>
        simp only [strLtSub] at hab hbc ⊢
        rcases Nat.lt_trichotomy x.toNat y.toNat with h1 | h1 | h1
        · rcases Nat.lt_trichotomy y.toNat z.toNat with h2 | h2 | h2
          · simp [Nat.lt_trans h1 h2]
          · have : x.toNat < z.toNat := by rw [← h2]; exact h1
            simp [this]
          · exfalso
            simp [Nat.lt_asymm h2, h2] at hbc
        · rcases Nat.lt_trichotomy y.toNat z.toNat with h2 | h2 | h2
          · have : x.toNat < z.toNat := by rw [h1]; exact h2
            simp [this]
          · have hxz : x.toNat = z.toNat := h1.trans h2
            have hab' : strLtSub xs ys = true := by
              simpa [h1, Nat.lt_irrefl] using hab
            have hbc' : strLtSub ys zs = true := by
              simpa [h2, Nat.lt_irrefl] using hbc
            simp [hxz, Nat.lt_irrefl, ih ys zs hab' hbc']
          · exfalso
            simp [Nat.lt_asymm h2, h2] at hbc
        · exfalso
          simp [Nat.lt_asymm h1, h1] at hab

theorem char_eq_of_toNat_eq {a b : Char} (h : a.toNat = b.toNat) : a = b :=
  Char.eq_of_val_eq (UInt32.ext h)

theorem strLtSub_conn (a : List Char) : ∀ b, strLtSub a b = false →
    strLtSub b a = false → a = b := by
  induction a with
  | nil =>
    intro b hab _
    cases b with
    | nil => rfl
    | cons y ys => simp [strLtSub] at hab
  | cons x xs ih =>
    intro b hab hba
    cases b with
    | nil => simp [strLtSub] at hba
    | cons y ys =>
      simp only [strLtSub] at hab hba
      rcases Nat.lt_trichotomy x.toNat y.toNat with h1 | h1 | h1
      · exfalso; simp [h1] at hab
      · have hab' : strLtSub xs ys = false := by
          simpa [h1, Nat.lt_irrefl] using hab
        have hba' : strLtSub ys xs = false := by
          simpa [h1, Nat.lt_irrefl] using hba
        rw [char_eq_of_toNat_eq h1, ih ys hab' hba']
      · exfalso; simp [h1] at hba

theorem strLtB_irrefl (s : String) : strLtB s s = false :=
  strLtSub_irrefl s.data

theorem strLtB_trans {a b c : String} (hab : strLtB a b = true)
    (hbc : strLtB b c = true) : strLtB a c = true :=
  strLtSub_trans a.data b.data c.data hab hbc

theorem strLtB_conn {a b : String} (hab : strLtB a b = false)
    (hba : strLtB b a = false) : a = b := by
  have h := strLtSub_conn a.data b.data hab hba
  cases a; cases b; exact congrArg String.mk h

/-! ### Summary-panel selection lemmas -/

theorem selectPanelLoop_cons (p : DocumentPanel) (rest : List DocumentPanel)
    (best : Option (String × String)) :
    selectPanelLoop (p :: rest) best =
      if panelQualifies p = true then
        match best with
        | none => selectPanelLoop rest (some (extractPanelMd p, p.contentUpdatedAt))
        | some (bc, bt) =>
          if strLtB bt p.contentUpdatedAt then
            selectPanelLoop rest (some (extractPanelMd p, p.contentUpdatedAt))
          else selectPanelLoop rest (some (bc, bt))
      else selectPanelLoop rest best := by
  by_cases h1 : (p.title == "Summary" && p.content.isSome) = true
  · by_cases h2 : (extractPanelMd p != "") = true
    · have hq : panelQualifies p = true := by
        simp only [panelQualifies, h1, h2, Bool.true_and]
      simp [selectPanelLoop, h1, h2, hq]
    · have h2' : extractPanelMd p = "" := by simpa using h2
      have hq : panelQualifies p = false := by
        simp [panelQualifies, h2']
      simp [selectPanelLoop, h1, h2', hq]
  · have h1' : (p.title == "Summary" && p.content.isSome) = false := by simpa using h1
    have hq : panelQualifies p = false := by
      simp [panelQualifies, h1']
    simp [selectPanelLoop, h1', hq]

theorem selectPanelLoop_none_iff (l : List DocumentPanel) :
    ∀ best, (selectPanelLoop l best = none ↔
      (best = none ∧ ∀ p ∈ l, panelQualifies p = false)) := by
  induction l with
  | nil => intro best; simp [selectPanelLoop]
  | cons p rest ih =>
    intro best
    rw [selectPanelLoop_cons]
    by_cases hq : panelQualifies p = true
    · rw [if_pos hq]
      cases best with
      | none => simp [ih, hq]
      | some pair =>
        obtain ⟨bc, bt⟩ := pair
        by_cases hlt : strLtB bt p.contentUpdatedAt = true
        · simp [hlt, ih, hq]
        · simp only [Bool.not_eq_true] at hlt
          simp [hlt, ih, hq]
    · have hq' : panelQualifies p = false := by simpa using hq
      rw [if_neg hq]
      rw [ih best]
      simp [hq']

theorem selectPanelLoop_some_spec (l : List DocumentPanel) :
    ∀ best c t, selectPanelLoop l best = some (c, t) →
      ((best = some (c, t)) ∨
        ∃ p ∈ l, panelQualifies p = true ∧ extractPanelMd p = c ∧
          p.contentUpdatedAt = t) ∧
      (∀ p ∈ l, panelQualifies p = true → strLtB t p.contentUpdatedAt = false) ∧
      (∀ bc bt, best = some (bc, bt) → strLtB t bt = false) := by
  induction l with
  | nil =>
    intro best c t h
    simp only [selectPanelLoop] at h
    refine ⟨Or.inl h, by simp, ?_⟩
    intro bc bt hbe
    rw [h] at hbe
    injection hbe with hp
    have hbt : t = bt := congrArg Prod.snd hp
    rw [← hbt]
    exact strLtB_irrefl t
  | cons p rest ih =>
    intro best c t h
    rw [selectPanelLoop_cons] at h
    by_cases hq : panelQualifies p = true
    · rw [if_pos hq] at h
      cases best with
      | none =>
        obtain ⟨hsrc, hmax, hbest⟩ := ih (some (extractPanelMd p, p.contentUpdatedAt)) c t h
        refine ⟨?_, ?_, ?_⟩
        · rcases hsrc with he | ⟨q, hqmem, hrest⟩
          · right
            refine ⟨p, List.mem_cons_self p rest, hq, ?_, ?_⟩
            · injection he with hp
              exact congrArg Prod.fst hp
            · injection he with hp
              exact congrArg Prod.snd hp
          · exact Or.inr ⟨q, List.mem_cons_of_mem _ hqmem, hrest⟩
        · intro q hqmem hqq
          rcases List.mem_cons.mp hqmem with rfl | hmem
          · exact hbest _ _ rfl
          · exact hmax q hmem hqq
        · intro bc bt hbe
          simp at hbe
      | some pair =>
        obtain ⟨bc0, bt0⟩ := pair
        by_cases hlt : strLtB bt0 p.contentUpdatedAt = true
        · simp only [hlt, if_true] at h
          obtain ⟨hsrc, hmax, hbest⟩ := ih (some (extractPanelMd p, p.contentUpdatedAt)) c t h
          refine ⟨?_, ?_, ?_⟩
          · rcases hsrc with he | ⟨q, hqmem, hrest⟩
            · right
              refine ⟨p, List.mem_cons_self p rest, hq, ?_, ?_⟩
              · injection he with hp
                exact congrArg Prod.fst hp
              · injection he with hp
                exact congrArg Prod.snd hp
            · exact Or.inr ⟨q, List.mem_cons_of_mem _ hqmem, hrest⟩
          · intro q hqmem hqq
            rcases List.mem_cons.mp hqmem with rfl | hmem
            · exact hbest _ _ rfl
            · exact hmax q hmem hqq
          · intro bc bt hbe
            injection hbe with hp
            obtain ⟨rfl, rfl⟩ : bc0 = bc ∧ bt0 = bt :=
              ⟨congrArg Prod.fst hp, congrArg Prod.snd hp⟩
            cases htb : strLtB t bt0 with
            | false => rfl
            | true =>
              have := strLtB_trans htb hlt
              rw [hbest _ _ rfl] at this
              exact absurd this (by simp)
        · have hlt' : strLtB bt0 p.contentUpdatedAt = false := by simpa using hlt
          simp only [hlt', Bool.false_eq_true, if_false] at h
          obtain ⟨hsrc, hmax, hbest⟩ := ih (some (bc0, bt0)) c t h
          refine ⟨?_, ?_, ?_⟩
          · rcases hsrc with he | ⟨q, hqmem, hrest⟩
            · exact Or.inl he
            · exact Or.inr ⟨q, List.mem_cons_of_mem _ hqmem, hrest⟩
          · intro q hqmem hqq
            rcases List.mem_cons.mp hqmem with rfl | hmem
            · cases htp : strLtB t q.contentUpdatedAt with
              | false => rfl
              | true =>
                exfalso
                have h1 : strLtB t bt0 = false := hbest _ _ rfl
                cases hc2 : strLtB q.contentUpdatedAt bt0 with
                | true =>
                  have := strLtB_trans htp hc2
                  rw [h1] at this
                  exact absurd this (by simp)
                | false =>
                  have heq : bt0 = q.contentUpdatedAt := strLtB_conn hlt' hc2
                  rw [← heq, h1] at htp
                  exact absurd htp (by simp)
            · exact hmax q hmem hqq
          · intro bc bt hbe
            injection hbe with hp
            obtain ⟨rfl, rfl⟩ : bc0 = bc ∧ bt0 = bt :=
              ⟨congrArg Prod.fst hp, congrArg Prod.snd hp⟩
            exact hbest _ _ rfl
    · have hq' : panelQualifies p = false := by simpa using hq
      rw [if_neg hq] at h
      obtain ⟨hsrc, hmax, hbest⟩ := ih best c t h
      refine ⟨?_, ?_, ?_⟩
      · rcases hsrc with he | ⟨q, hqmem, hrest⟩
        · exact Or.inl he
        · exact Or.inr ⟨q, List.mem_cons_of_mem _ hqmem, hrest⟩
      · intro q hqmem hqq
        rcases List.mem_cons.mp hqmem with rfl | hmem
        · rw [hq'] at hqq
          exact absurd hqq (by simp)
        · exact hmax q hmem hqq
      · exact hbest

/-- C3 (corrected, counterexample): the panel-selection step of the cache
decode is not invariant under the map iteration order when two qualifying
Summary panels share the same `contentUpdatedAt`: the two orders of the same
panel set recover different markdown notes for the document. -/
theorem cacheDecode_order_dependent :
    List.Perm
      [summaryPanel "p1" "a" "2025-01-01", summaryPanel "p2" "b" "2025-01-01"]
      [summaryPanel "p2" "b" "2025-01-01", summaryPanel "p1" "a" "2025-01-01"] ∧
    applyPanels sampleDoc
        [summaryPanel "p1" "a" "2025-01-01", summaryPanel "p2" "b" "2025-01-01"] ≠
      applyPanels sampleDoc
        [summaryPanel "p2" "b" "2025-01-01", summaryPanel "p1" "a" "2025-01-01"] :=
  ⟨List.Perm.swap _ _ _, by decide⟩

/-- C3 (corrected, amended): the decoder promotes a qualifying Summary panel
whose `contentUpdatedAt` is greatest among the qualifying panels (compared as
raw strings), and the decode result is independent of the map iteration order
provided any two qualifying panels with equal `contentUpdatedAt` recover the
same markdown text; under that proviso two runs yield the same document. -/
theorem cacheDecode_deterministic_without_ties :
    (∀ (l : List DocumentPanel) (c t : String), selectBestPanel l = some (c, t) →
      (∃ p ∈ l, panelQualifies p = true ∧ extractPanelMd p = c ∧
        p.contentUpdatedAt = t) ∧
      ∀ q ∈ l, panelQualifies q = true → strLtB t q.contentUpdatedAt = false) ∧
    (∀ (doc : Document) (l1 l2 : List DocumentPanel), List.Perm l1 l2 →
      (∀ p ∈ l1, ∀ q ∈ l1, panelQualifies p = true → panelQualifies q = true →
        p.contentUpdatedAt = q.contentUpdatedAt →
        extractPanelMd p = extractPanelMd q) →
      applyPanels doc l1 = applyPanels doc l2) := by
  have hsome : ∀ (l : List DocumentPanel) (c t : String),
      selectBestPanel l = some (c, t) →
      (∃ p ∈ l, panelQualifies p = true ∧ extractPanelMd p = c ∧
        p.contentUpdatedAt = t) ∧
      ∀ q ∈ l, panelQualifies q = true → strLtB t q.contentUpdatedAt = false := by
    intro l c t h
    obtain ⟨hsrc, hmax, _⟩ := selectPanelLoop_some_spec l none c t h
    refine ⟨?_, hmax⟩
    rcases hsrc with he | hex
    · simp at he
    · exact hex
  refine ⟨hsome, ?_⟩
  intro doc l1 l2 hperm hagree
  have hsel : selectBestPanel l1 = selectBestPanel l2 := by
    cases h1 : selectBestPanel l1 with
    | none =>
      have hall1 := ((selectPanelLoop_none_iff l1 none).mp h1).2
      cases h2 : selectBestPanel l2 with
      | none => rfl
      | some pair =>
        obtain ⟨c2, t2⟩ := pair
        obtain ⟨⟨p2, hp2mem, hp2q, _, _⟩, _⟩ := hsome l2 c2 t2 h2
        have : panelQualifies p2 = false := hall1 p2 (hperm.symm.subset hp2mem)
        rw [hp2q] at this
        exact absurd this (by simp)
    | some pair =>
      obtain ⟨c1, t1⟩ := pair
      obtain ⟨⟨p1, hp1mem, hp1q, hp1md, hp1ts⟩, hmax1⟩ := hsome l1 c1 t1 h1
      cases h2 : selectBestPanel l2 with
      | none =>
        have hall2 := ((selectPanelLoop_none_iff l2 none).mp h2).2
        have : panelQualifies p1 = false := hall2 p1 (hperm.subset hp1mem)
        rw [hp1q] at this
        exact absurd this (by simp)
      | some pair2 =>
        obtain ⟨c2, t2⟩ := pair2
        obtain ⟨⟨p2, hp2mem, hp2q, hp2md, hp2ts⟩, hmax2⟩ := hsome l2 c2 t2 h2
        have hp2mem1 : p2 ∈ l1 := hperm.symm.subset hp2mem
        have hp1mem2 : p1 ∈ l2 := hperm.subset hp1mem
        have h12 : strLtB t1 t2 = false := by
          have := hmax1 p2 hp2mem1 hp2q
          rw [hp2ts] at this
          exact this
        have h21 : strLtB t2 t1 = false := by
          have := hmax2 p1 hp1mem2 hp1q
          rw [hp1ts] at this
          exact this
        have hteq : t1 = t2 := strLtB_conn h12 h21
        have hmdeq : extractPanelMd p1 = extractPanelMd p2 := by
          apply hagree p1 hp1mem p2 hp2mem1 hp1q hp2q
          rw [hp1ts, hp2ts, hteq]
        rw [← hp1md, ← hp2md, hmdeq, hteq]
  simp only [applyPanels, hsel]

/-- Witness for C3 (amended): with two qualifying panels of distinct
timestamps the two iteration orders recover the same notes. -/
theorem cacheDecode_deterministic_without_ties_witness :
    applyPanels sampleDoc
        [summaryPanel "p1" "a" "2025-01-01", summaryPanel "p2" "b" "2025-01-02"] =
      applyPanels sampleDoc
        [summaryPanel "p2" "b" "2025-01-02", summaryPanel "p1" "a" "2025-01-01"] :=
  cacheDecode_deterministic_without_ties.2 sampleDoc _ _
    (List.Perm.swap _ _ _) (by decide)

/-! ### Rich-text list-item rendering (C8) -/

theorem extractListItemChildren_spec : ∀ (l : RList) (depth i : Nat),
    extractListItemChildren l (tabs depth) depth i = listItemSpecJoin l depth i
  | .nil, _, _ => rfl
  | .cons c rest, depth, i => by
    rw [extractListItemChildren, listItemSpecJoin,
      extractListItemChildren_spec rest depth (i + 1)]
    congr 1
    by_cases hp : nodeTypeOf c = "paragraph"
    · simp [listItemChildSpec, hp]
    · by_cases hb : nodeTypeOf c = "bulletList"
      · simp [listItemChildSpec, hp, hb, Nat.beq_eq]
      · by_cases ho : nodeTypeOf c = "orderedList"
        · simp [listItemChildSpec, hp, hb, ho, Nat.beq_eq]
        · simp [listItemChildSpec, hp, hb, ho]

/-- C8. For a `listItem` node, each paragraph child with non-empty text
renders as a bullet line at the item's indent, each nested
bullet/ordered-list child renders one indent level deeper with an empty
bullet placeholder when the nested list is the first content child, and any
other child contributes nothing; moreover a node of unrecognized type renders
as the empty string (silently skipped), the conversion being total. -/
theorem extractListItem_rendering :
    (∀ (ty tx : Option String) (l : RList) (depth : Nat),
      extractListItemNode (.map ty (some l) tx) (tabs depth) depth =
        listItemSpecJoin l depth 0) ∧
    (∀ (node : RVal) (depth : Nat),
      nodeTypeOf node ∉
        (["heading", "paragraph", "bulletList", "orderedList", "listItem",
          "text"] : List String) →
      extractNodeToLogseq node depth = "") := by
  constructor
  · intro ty tx l depth
    rw [extractListItemNode]
    exact extractListItemChildren_spec l depth 0
  · intro node depth hmem
    cases node with
    | other => rfl
    | map ty content tx =>
      simp only [nodeTypeOf, List.mem_cons, List.mem_singleton] at hmem
      push_neg at hmem
      obtain ⟨h1, h2, h3, h4, h5, h6⟩ := hmem
      rw [extractNodeToLogseq.eq_def]
      simp [h1, h2, h3, h4, h5, h6]

/-- Witness for C8: a `blockquote` node (unrecognized type) renders empty, and
a concrete `listItem` whose first child is a nested list gets the placeholder
line. -/
theorem extractListItem_rendering_witness :
    extractNodeToLogseq (.map (some "blockquote") none none) 3 = "" ∧
    extractListItemNode
        (.map (some "listItem")
          (some (.cons
            (.map (some "bulletList")
              (some (.cons (.map (some "paragraph")
                (some (.cons (.map none none (some "x")) .nil)) none) .nil)) none)
            .nil)) none) (tabs 0) 0 =
      listItemSpecJoin
        (.cons
          (.map (some "bulletList")
            (some (.cons (.map (some "paragraph")
              (some (.cons (.map none none (some "x")) .nil)) none) .nil)) none)
          .nil) 0 0 :=
  ⟨extractListItem_rendering.2 (.map (some "blockquote") none none) 3 (by decide),
   extractListItem_rendering.1 (some "listItem") none _ 0⟩

/-! ### Newline bookkeeping for `MarkUserTodos` (C9) -/

theorem getLast?_append_right : ∀ (a b : List Char), b ≠ [] →
    (a ++ b).getLast? = b.getLast?
  | [], _, _ => by simp
  | c :: as, b, hb => by
    cases hx : as ++ b with
    | nil =>
      rcases List.append_eq_nil.mp hx with ⟨-, rfl⟩
      exact absurd rfl hb
    | cons d ds =>
      rw [List.cons_append, hx, List.getLast?_cons_cons, ← hx,
        getLast?_append_right as b hb]

theorem dropLast_append_right : ∀ (a b : List Char), b ≠ [] →
    (a ++ b).dropLast = a ++ b.dropLast
  | [], _, _ => by simp
  | c :: as, b, hb => by
    cases hx : as ++ b with
    | nil =>
      rcases List.append_eq_nil.mp hx with ⟨-, rfl⟩
      exact absurd rfl hb
    | cons d ds =>
      rw [List.cons_append, hx, List.dropLast_cons₂, ← hx,
        dropLast_append_right as b hb, List.cons_append]

theorem mk_data (s : String) : String.mk s.data = s := rfl

theorem trimNl_concat_nl (s : String) : trimNl (s ++ "\n") = s := by
  have hdata : (s ++ "\n").data = s.data ++ ['\n'] := rfl
  rw [trimNl, hdata, getLast?_append_right s.data ['\n'] (by simp)]
  simp [List.dropLast_concat, mk_data]

theorem trimNl_append (a b : String) (hb : b.data ≠ []) :
    trimNl (a ++ b) = a ++ trimNl b := by
  have hdata : (a ++ b).data = a.data ++ b.data := rfl
  rw [trimNl, trimNl, hdata, getLast?_append_right a.data b.data hb]
  by_cases h : b.data.getLast? = some '\n'
  · rw [if_pos h, if_pos h, dropLast_append_right a.data b.data hb]
    rfl
  · rw [if_neg h, if_neg h]

theorem append_nl_data_ne (x tail : String) : (x ++ "\n" ++ tail).data ≠ [] := by
  have hdata : (x ++ "\n" ++ tail).data = (x.data ++ ['\n']) ++ tail.data := rfl
  rw [hdata]
  simp

theorem markLoop_cons_ne (u line : String) (rest : List String) (ins : Bool) :
    (markLoop u (line :: rest) ins).data ≠ [] := by
  rw [markLoop]
  by_cases hh : isTodoSectionHeader line = true
  · rw [if_pos hh]
    exact append_nl_data_ne _ _
  · rw [if_neg hh]
    exact append_nl_data_ne _ _

theorem markSpecLines_cons_ne (u line : String) (rest : List String) (ins : Bool) :
    markSpecLines u (line :: rest) ins ≠ [] := by
  rw [markSpecLines]
  by_cases hh : isTodoSectionHeader line = true
  · rw [if_pos hh]
    simp
  · rw [if_neg hh]
    simp

theorem markStep_case (u line1 : String) (rest : List String) (ins2 : Bool)
    (ih : trimNl (markLoop u rest ins2) = joinLines (markSpecLines u rest ins2)) :
    trimNl (line1 ++ "\n" ++ markLoop u rest ins2) =
      joinLines (line1 :: markSpecLines u rest ins2) := by
  cases rest with
  | nil =>
    simp only [markLoop, markSpecLines, joinLines]
    rw [String.append_empty, trimNl_concat_nl]
  | cons r rs =>
    rw [trimNl_append (line1 ++ "\n") _ (markLoop_cons_ne u r rs ins2), ih]
    cases hms : markSpecLines u (r :: rs) ins2 with
    | nil => exact absurd hms (markSpecLines_cons_ne u r rs ins2)
    | cons x xs => simp [joinLines]

theorem markLoop_spec (u : String) (lines : List String) : ∀ ins : Bool,
    trimNl (markLoop u lines ins) = joinLines (markSpecLines u lines ins) := by
  induction lines with
  | nil =>
    intro ins
    simp [markLoop, markSpecLines, joinLines, trimNl]
  | cons line rest ih =>
    intro ins
    by_cases hh : isTodoSectionHeader line = true
    · simp only [markLoop, markSpecLines, hh, if_true]
      exact markStep_case u line rest true (ih true)
    · have hh' : isTodoSectionHeader line = false := by simpa using hh
      simp only [markLoop, markSpecLines, hh', Bool.false_eq_true, if_false]
      have hins :
          (if (ins && containsStr line "**" && !false) = true then false else ins) =
            (ins && !containsStr line "**") := by
        cases ins <;> cases hcv : containsStr line "**" <;> simp [hcv]
      rw [hins]
      exact markStep_case u _ rest (ins && !containsStr line "**")
        (ih (ins && !containsStr line "**"))

/-- C9 (corrected, counterexample): the task-marking pass rewrites a line that
merely contains "- userName:" without beginning with it, contradicting the
claim that exactly the lines beginning with the marker are rewritten (on this
input no line begins with the marker, yet the output differs from the input). -/
theorem markUserTodos_rewrites_nonprefix_line :
    MarkUserTodos "- **Action Items**\nx- Bob: t" "Bob" =
      "- **Action Items**\nx- TODO Bob: t" ∧
    ∀ line ∈ splitLines "- **Action Items**\nx- Bob: t",
      isPre ("- Bob:").data line.data = false := by
  constructor
  · decide
  · decide

/-- C9 (corrected, amended): with a non-empty user name, exactly the lines
inside a recognized action-item section (opened by a bold line containing a
known header phrase case-insensitively, closed by the next line carrying bold
emphasis that is not itself a recognized header) that contain
"- userName:" are rewritten, the first occurrence being prefixed with the
TODO marker; an empty user name returns the content unchanged. The source
loop equals the claim-side state machine on every input. -/
theorem markUserTodos_marks_containing_lines (content userName : String) :
    MarkUserTodos content userName = MarkUserTodosSpec content userName := by
  by_cases hu : userName = ""
  · rw [MarkUserTodos, MarkUserTodosSpec, if_pos (by simpa [beq_iff_eq] using hu),
      if_pos hu]
  · rw [MarkUserTodos, MarkUserTodosSpec,
      if_neg (by simpa [beq_iff_eq] using hu), if_neg hu]
    exact markLoop_spec userName (splitLines content) false

/-! ### Journal writer lemmas (C2, C10) -/

theorem containsStr_append_right (x s p : String) (h : containsStr s p = true) :
    containsStr (x ++ s) p = true := by
  have hdata : (x ++ s).data = x.data ++ s.data := rfl
  show containsSub (x ++ s).data p.data = true
  rw [hdata]
  exact containsSub_append_right x.data h

theorem formatJournalEntry_contains (pl : String → Option GoTime) (doc : Document) :
    containsStr (FormatJournalEntry pl doc) (GetPageName pl doc) = true := by
  rw [FormatJournalEntry]
  rw [String.append_assoc, String.append_assoc]
  exact containsStr_middle _ _ _

/-- C2 (corrected, amended): calling `AppendJournalEntry` twice in a row for
the same document makes the second call scan the journal, find the page
reference (the appended entry embeds it, or the prior content already held
it), perform no write, and return `added=false` with the filesystem exactly
as the first call left it — the writer itself never appends the reference a
second time. The literal "exactly one occurrence" count can still fail when
the prior content or the entry's own attendee line embeds the page-name
string (see the counterexample). -/
theorem appendJournal_second_call_noop (env : Env) (fs : FS) (doc : Document) :
    match AppendJournalEntry env fs doc with
    | .error _ => True
    | .ok (_, fs1) => AppendJournalEntry env fs1 doc = .ok (false, fs1) := by
  by_cases hc :
      containsStr
        ((fs (env.basePath ++ "/journals/" ++ GetJournalFilename env.parseLocal doc)).getD "")
        (GetPageName env.parseLocal doc) = true
  · have h1 : AppendJournalEntry env fs doc = .ok (false, fs) := by
      rw [AppendJournalEntry, if_pos hc]
    rw [h1]
    show AppendJournalEntry env fs doc = .ok (false, fs)
    exact h1
  · rw [AppendJournalEntry, if_neg hc]
    by_cases hw :
        env.writeFail
          (env.basePath ++ "/journals/" ++ GetJournalFilename env.parseLocal doc) = true
    · simp only [osWriteFile]
      rw [if_pos hw]
      trivial
    · simp only [osWriteFile]
      rw [if_neg hw]
      show AppendJournalEntry env
          (updateFs fs (env.basePath ++ "/journals/" ++ GetJournalFilename env.parseLocal doc) _)
          doc = .ok (false, _)
      have hread :
          (updateFs fs (env.basePath ++ "/journals/" ++ GetJournalFilename env.parseLocal doc)
            (if (fs (env.basePath ++ "/journals/" ++ GetJournalFilename env.parseLocal doc)).getD "" = ""
             then FormatJournalEntry env.parseLocal doc
             else if !(endsNl ((fs (env.basePath ++ "/journals/" ++ GetJournalFilename env.parseLocal doc)).getD ""))
             then (fs (env.basePath ++ "/journals/" ++ GetJournalFilename env.parseLocal doc)).getD "" ++ "\n" ++ FormatJournalEntry env.parseLocal doc
             else (fs (env.basePath ++ "/journals/" ++ GetJournalFilename env.parseLocal doc)).getD "" ++ FormatJournalEntry env.parseLocal doc))
            (env.basePath ++ "/journals/" ++ GetJournalFilename env.parseLocal doc) =
          some
            (if (fs (env.basePath ++ "/journals/" ++ GetJournalFilename env.parseLocal doc)).getD "" = ""
             then FormatJournalEntry env.parseLocal doc
             else if !(endsNl ((fs (env.basePath ++ "/journals/" ++ GetJournalFilename env.parseLocal doc)).getD ""))
             then (fs (env.basePath ++ "/journals/" ++ GetJournalFilename env.parseLocal doc)).getD "" ++ "\n" ++ FormatJournalEntry env.parseLocal doc
             else (fs (env.basePath ++ "/journals/" ++ GetJournalFilename env.parseLocal doc)).getD "" ++ FormatJournalEntry env.parseLocal doc) := by
        rw [updateFs, if_pos rfl]
      have hnc :
          containsStr
            (if (fs (env.basePath ++ "/journals/" ++ GetJournalFilename env.parseLocal doc)).getD "" = ""
             then FormatJournalEntry env.parseLocal doc
             else if !(endsNl ((fs (env.basePath ++ "/journals/" ++ GetJournalFilename env.parseLocal doc)).getD ""))
             then (fs (env.basePath ++ "/journals/" ++ GetJournalFilename env.parseLocal doc)).getD "" ++ "\n" ++ FormatJournalEntry env.parseLocal doc
             else (fs (env.basePath ++ "/journals/" ++ GetJournalFilename env.parseLocal doc)).getD "" ++ FormatJournalEntry env.parseLocal doc)
            (GetPageName env.parseLocal doc) = true := by
        by_cases he :
            (fs (env.basePath ++ "/journals/" ++ GetJournalFilename env.parseLocal doc)).getD "" = ""
        · rw [if_pos he]
          exact formatJournalEntry_contains env.parseLocal doc
        · rw [if_neg he]
          by_cases hend :
              (!(endsNl ((fs (env.basePath ++ "/journals/" ++ GetJournalFilename env.parseLocal doc)).getD ""))) = true
          · rw [if_pos hend]
            exact containsStr_append_right _ _ _ (formatJournalEntry_contains env.parseLocal doc)
          · rw [if_neg hend]
            exact containsStr_append_right _ _ _ (formatJournalEntry_contains env.parseLocal doc)
      rw [AppendJournalEntry]
      rw [hread]
      simp only [Option.getD_some]
      rw [if_pos hnc]

/-- C2 (corrected, counterexample): from an empty journal, two consecutive
appends for a document whose attendee name equals its own page name leave the
page-name string occurring twice (the link line and the attendee line), not
exactly once — even though the second call added nothing. -/
theorem appendJournal_two_occurrences :
    appendResultAdded (AppendJournalEntry plainEnv emptyFs selfRefDoc) = some true ∧
    appendResultAdded
      (AppendJournalEntry plainEnv
        (appendResultFs (AppendJournalEntry plainEnv emptyFs selfRefDoc) emptyFs)
        selfRefDoc) = some false ∧
    (match (appendResultFs (AppendJournalEntry plainEnv emptyFs selfRefDoc) emptyFs)
        "/kb/journals/2025_01_28.md" with
     | some c => occCount c (GetPageName plainEnv.parseLocal selfRefDoc)
     | none => 0) = 2 := by
  refine ⟨by decide, by decide, by decide⟩

/-- C10 (implicit claim, confirmed): the journal duplicate check is substring
containment over the whole file: with "Team Standup Extra" already journaled,
an append for the distinct same-day document "Team Standup" finds its page
name as a substring of the existing reference, writes nothing and returns
`added=false`, although the journal holds no bracketed reference for it. -/
theorem journal_substring_false_positive :
    AppendJournalEntry plainEnv fsAfterLong shortTitleDoc = .ok (false, fsAfterLong) ∧
    (match fsAfterLong "/kb/journals/2025_01_28.md" with
     | some c =>
       containsStr c ("[[" ++ GetPageName plainEnv.parseLocal shortTitleDoc ++ "]]")
     | none => true) = false :=
  ⟨rfl, by decide⟩

/-! ### Orchestrator lemmas (C4, C5, C7) -/

theorem containsStr_empty_pageName (pl : String → Option GoTime) (doc : Document) :
    containsStr "" (GetPageName pl doc) = false :=
  rfl

theorem writeMeetingPage_ok (env : Env) (fs : FS) (doc : Document)
    (hpf : env.writeFail
      (env.basePath ++ "/pages/" ++ GetPageFilename env.parseLocal doc) = false) :
    WriteMeetingPage env fs doc =
      .ok (env.basePath ++ "/pages/" ++ GetPageFilename env.parseLocal doc,
        updateFs fs (env.basePath ++ "/pages/" ++ GetPageFilename env.parseLocal doc)
          (MarkUserTodos (FormatMeetingPage env.parseLocal doc) env.userName)) := by
  simp only [WriteMeetingPage, osWriteFile]
  rw [if_neg (by simp [hpf])]

theorem appendJournal_ok (env : Env) (fs : FS) (doc : Document)
    (hjf : env.writeFail
      (env.basePath ++ "/journals/" ++ GetJournalFilename env.parseLocal doc) = false) :
    ∃ added fs2, AppendJournalEntry env fs doc = .ok (added, fs2) := by
  rw [AppendJournalEntry]
  by_cases hc :
      containsStr
        ((fs (env.basePath ++ "/journals/" ++ GetJournalFilename env.parseLocal doc)).getD "")
        (GetPageName env.parseLocal doc) = true
  · rw [if_pos hc]
    exact ⟨false, fs, rfl⟩
  · rw [if_neg hc]
    simp only [osWriteFile]
    rw [if_neg (by simp [hjf])]
    exact ⟨true, _, rfl⟩

theorem appendJournal_added_eq_dry (env : Env) (fs : FS) (doc : Document)
    (hjf : env.writeFail
      (env.basePath ++ "/journals/" ++ GetJournalFilename env.parseLocal doc) = false) :
    match AppendJournalEntry env fs doc with
    | .ok (added, _) => added = (DryRunJournalEntry env fs doc).2.2
    | .error _ => False := by
  rw [AppendJournalEntry, DryRunJournalEntry]
  cases hfs : fs (env.basePath ++ "/journals/" ++ GetJournalFilename env.parseLocal doc) with
  | none =>
    simp only [Option.getD_none]
    rw [if_neg (by simp [containsStr_empty_pageName])]
    simp only [osWriteFile]
    rw [if_neg (by simp [hjf])]
  | some existing =>
    simp only [Option.getD_some]
    by_cases hc : containsStr existing (GetPageName env.parseLocal doc) = true
    · rw [if_pos hc, if_pos hc]
    · rw [if_neg hc, if_neg hc]
      simp only [osWriteFile]
      rw [if_neg (by simp [hjf])]

/-- C5. The dry-run sync path leaves the filesystem and the store unchanged;
the dry-run page path and content are exactly what the live write would put
on disk; the dry-run would-add-journal boolean equals the added flag the live
append would return from the same starting state; and a dry run over a
brand-new, non-skipped document reports one new meeting while creating zero
files and touching no store record. -/
theorem dryRun_matches_live_and_frame :
    (∀ (env : Env) (since : Option Int) (minAge : Int) (doc : Document) (st : SyncState),
      (processDocument env since minAge true doc st).2.fs = st.fs ∧
      (processDocument env since minAge true doc st).2.store = st.store) ∧
    (∀ (env : Env) (fs : FS) (doc : Document),
      env.writeFail (DryRunMeetingPage env doc).1 = false →
      WriteMeetingPage env fs doc =
        .ok ((DryRunMeetingPage env doc).1,
          updateFs fs (DryRunMeetingPage env doc).1 (DryRunMeetingPage env doc).2)) ∧
    (∀ (env : Env) (fs : FS) (doc : Document),
      env.writeFail
        (env.basePath ++ "/journals/" ++ GetJournalFilename env.parseLocal doc) = false →
      (match AppendJournalEntry env fs doc with
       | .ok (added, _) => added = (DryRunJournalEntry env fs doc).2.2
       | .error _ => False)) ∧
    (∀ (env : Env) (since : Option Int) (minAge : Int) (doc : Document) (st : SyncState),
      IsDeleted doc = false →
      IsUserAttendee doc env.userEmail = true →
      (match since with
       | some s => decide ((GetMeetingDate env.parseLocal doc).instant < s)
       | none => false) = false →
      GetSyncedDocument st.store doc.id = none →
      (processDocument env since minAge true doc st).1 = none ∧
      (processDocument env since minAge true doc st).2.result.newMeetings =
        st.result.newMeetings + 1 ∧
      (processDocument env since minAge true doc st).2.result.updatedMeetings =
        st.result.updatedMeetings ∧
      (processDocument env since minAge true doc st).2.fs = st.fs ∧
      (processDocument env since minAge true doc st).2.store = st.store) := by
  refine ⟨?_, ?_, ?_, ?_⟩
  · intro env since minAge doc st
    rw [processDocument.eq_def]
    by_cases h1 : IsDeleted doc = true
    · rw [if_pos h1]; exact ⟨rfl, rfl⟩
    · rw [if_neg h1]
      by_cases h2 : (!(IsUserAttendee doc env.userEmail)) = true
      · rw [if_pos h2]; exact ⟨rfl, rfl⟩
      · rw [if_neg h2]
        rw [if_neg (by simp)]
        by_cases h4 : (match since with
          | some s => decide ((GetMeetingDate env.parseLocal doc).instant < s)
          | none => false) = true
        · rw [if_pos h4]; exact ⟨rfl, rfl⟩
        · rw [if_neg h4]
          by_cases h5 : (!(NeedsUpdate st.store doc.id doc.updatedAt (hashContent doc))) = true
          · rw [if_pos h5]; exact ⟨rfl, rfl⟩
          · rw [if_neg h5]
            exact ⟨rfl, rfl⟩
  · intro env fs doc hpf
    simp only [DryRunMeetingPage] at hpf ⊢
    exact writeMeetingPage_ok env fs doc hpf
  · intro env fs doc hjf
    exact appendJournal_added_eq_dry env fs doc hjf
  · intro env since minAge doc st hD hA hS hNew
    have hNU : NeedsUpdate st.store doc.id doc.updatedAt (hashContent doc) = true := by
      rw [NeedsUpdate, hNew]
    have hpd : processDocument env since minAge true doc st =
        dryRunDocument env doc true st := by
      rw [processDocument.eq_def, if_neg (by simp [hD]), if_neg (by simp [hA]),
        if_neg (by simp), if_neg (by simp [hS])]
      simp only [hNU, Bool.not_true, Bool.false_eq_true, if_false, hNew,
        Option.isNone_none, if_true]
    rw [hpd]
    by_cases hwa : (DryRunJournalEntry env st.fs doc).2.2 = true
    · simp [dryRunDocument, hwa]
    · simp [dryRunDocument, hwa]

/-- Witness for C5: a concrete dry run over a brand-new document against an
empty store and filesystem reports one new meeting and changes nothing. -/
theorem dryRun_matches_live_and_frame_witness :
    (processDocument plainEnv none 0 true sampleDoc ⟨emptyFs, [], ⟨0, 0, 0, []⟩⟩).1 = none ∧
    (processDocument plainEnv none 0 true sampleDoc
        ⟨emptyFs, [], ⟨0, 0, 0, []⟩⟩).2.result.newMeetings = 0 + 1 ∧
    (processDocument plainEnv none 0 true sampleDoc
        ⟨emptyFs, [], ⟨0, 0, 0, []⟩⟩).2.result.updatedMeetings = 0 ∧
    (processDocument plainEnv none 0 true sampleDoc
        ⟨emptyFs, [], ⟨0, 0, 0, []⟩⟩).2.fs = emptyFs ∧
    (processDocument plainEnv none 0 true sampleDoc
        ⟨emptyFs, [], ⟨0, 0, 0, []⟩⟩).2.store = ([] : StoreState) :=
  dryRun_matches_live_and_frame.2.2.2 plainEnv none 0 sampleDoc
    ⟨emptyFs, [], ⟨0, 0, 0, []⟩⟩ (by decide) (by decide) rfl rfl

theorem processDocument_live_eq (env : Env) (since : Option Int) (minAge : Int)
    (doc : Document) (st : SyncState)
    (hD : IsDeleted doc = false)
    (hA : IsUserAttendee doc env.userEmail = true)
    (hAge : decide (env.now - doc.updatedAt < minAge) = false)
    (hS : (match since with
           | some s => decide ((GetMeetingDate env.parseLocal doc).instant < s)
           | none => false) = false)
    (hNU : NeedsUpdate st.store doc.id doc.updatedAt (hashContent doc) = true) :
    processDocument env since minAge false doc st =
      syncDocument env doc (hashContent doc)
        ((GetSyncedDocument st.store doc.id).isNone) st := by
  rw [processDocument.eq_def, if_neg (by simp [hD]), if_neg (by simp [hA]),
    if_neg (by simp [hAge]), if_neg (by simp [hS])]
  simp only [hNU, Bool.not_true, Bool.false_eq_true, if_false, if_true]

/-- C4. For a live run over a non-skipped document that needs syncing, the
document is classified as new exactly when no SyncRecord exists for its id:
when a record exists ("updated") the page is rewritten and the journal is
never touched; when none exists ("new") the journal append is attempted; in
both cases the SyncRecord is upserted. Consequently, after one successful
live sync, a second sync of the same id (same title, changed notes hash)
counts as updated, not new. -/
theorem processDocument_new_vs_update :
    (∀ (env : Env) (since : Option Int) (minAge : Int) (doc : Document) (st : SyncState),
      (∀ p, env.writeFail p = false) →
      IsDeleted doc = false →
      IsUserAttendee doc env.userEmail = true →
      decide (env.now - doc.updatedAt < minAge) = false →
      (match since with
       | some s => decide ((GetMeetingDate env.parseLocal doc).instant < s)
       | none => false) = false →
      NeedsUpdate st.store doc.id doc.updatedAt (hashContent doc) = true →
      ((processDocument env since minAge false doc st).1 = none ∧
       (processDocument env since minAge false doc st).2.store =
         MarkSynced st.store
           ⟨doc.id, doc.title, env.now, some doc.updatedAt,
             env.basePath ++ "/pages/" ++ GetPageFilename env.parseLocal doc,
             hashContent doc⟩ ∧
       ((GetSyncedDocument st.store doc.id).isNone = false →
         (processDocument env since minAge false doc st).2.fs =
           updateFs st.fs (env.basePath ++ "/pages/" ++ GetPageFilename env.parseLocal doc)
             (MarkUserTodos (FormatMeetingPage env.parseLocal doc) env.userName) ∧
         (processDocument env since minAge false doc st).2.result.newMeetings =
           st.result.newMeetings ∧
         (processDocument env since minAge false doc st).2.result.updatedMeetings =
           st.result.updatedMeetings + 1 ∧
         (processDocument env since minAge false doc st).2.result.newJournals =
           st.result.newJournals) ∧
       ((GetSyncedDocument st.store doc.id).isNone = true →
         (processDocument env since minAge false doc st).2.result.newMeetings =
           st.result.newMeetings + 1 ∧
         (processDocument env since minAge false doc st).2.result.updatedMeetings =
           st.result.updatedMeetings ∧
         (match AppendJournalEntry env
             (updateFs st.fs
               (env.basePath ++ "/pages/" ++ GetPageFilename env.parseLocal doc)
               (MarkUserTodos (FormatMeetingPage env.parseLocal doc) env.userName)) doc with
          | .ok (added, fs2) =>
            (processDocument env since minAge false doc st).2.fs = fs2 ∧
            (processDocument env since minAge false doc st).2.result.newJournals =
              st.result.newJournals + (if added then 1 else 0)
          | .error _ => False)))) ∧
    (∀ (env : Env) (since : Option Int) (minAge : Int) (doc doc2 : Document)
        (st : SyncState),
      (∀ p, env.writeFail p = false) →
      IsDeleted doc = false →
      IsUserAttendee doc env.userEmail = true →
      decide (env.now - doc.updatedAt < minAge) = false →
      (match since with
       | some s => decide ((GetMeetingDate env.parseLocal doc).instant < s)
       | none => false) = false →
      NeedsUpdate st.store doc.id doc.updatedAt (hashContent doc) = true →
      doc2.id = doc.id →
      doc2.title = doc.title →
      hashContent doc2 ≠ hashContent doc →
      IsDeleted doc2 = false →
      IsUserAttendee doc2 env.userEmail = true →
      decide (env.now - doc2.updatedAt < minAge) = false →
      (match since with
       | some s => decide ((GetMeetingDate env.parseLocal doc2).instant < s)
       | none => false) = false →
      ((processDocument env since minAge false doc2
          (processDocument env since minAge false doc st).2).2.result.newMeetings =
        (processDocument env since minAge false doc st).2.result.newMeetings ∧
       (processDocument env since minAge false doc2
          (processDocument env since minAge false doc st).2).2.result.updatedMeetings =
        (processDocument env since minAge false doc st).2.result.updatedMeetings + 1)) := by
  have main : ∀ (env : Env) (since : Option Int) (minAge : Int) (doc : Document)
      (st : SyncState),
      (∀ p, env.writeFail p = false) →
      IsDeleted doc = false →
      IsUserAttendee doc env.userEmail = true →
      decide (env.now - doc.updatedAt < minAge) = false →
      (match since with
       | some s => decide ((GetMeetingDate env.parseLocal doc).instant < s)
       | none => false) = false →
      NeedsUpdate st.store doc.id doc.updatedAt (hashContent doc) = true →
      ((processDocument env since minAge false doc st).1 = none ∧
       (processDocument env since minAge false doc st).2.store =
         MarkSynced st.store
           ⟨doc.id, doc.title, env.now, some doc.updatedAt,
             env.basePath ++ "/pages/" ++ GetPageFilename env.parseLocal doc,
             hashContent doc⟩ ∧
       ((GetSyncedDocument st.store doc.id).isNone = false →
         (processDocument env since minAge false doc st).2.fs =
           updateFs st.fs (env.basePath ++ "/pages/" ++ GetPageFilename env.parseLocal doc)
             (MarkUserTodos (FormatMeetingPage env.parseLocal doc) env.userName) ∧
         (processDocument env since minAge false doc st).2.result.newMeetings =
           st.result.newMeetings ∧
         (processDocument env since minAge false doc st).2.result.updatedMeetings =
           st.result.updatedMeetings + 1 ∧
         (processDocument env since minAge false doc st).2.result.newJournals =
           st.result.newJournals) ∧
       ((GetSyncedDocument st.store doc.id).isNone = true →
         (processDocument env since minAge false doc st).2.result.newMeetings =
           st.result.newMeetings + 1 ∧
         (processDocument env since minAge false doc st).2.result.updatedMeetings =
           st.result.updatedMeetings ∧
         (match AppendJournalEntry env
             (updateFs st.fs
               (env.basePath ++ "/pages/" ++ GetPageFilename env.parseLocal doc)
               (MarkUserTodos (FormatMeetingPage env.parseLocal doc) env.userName)) doc with
          | .ok (added, fs2) =>
            (processDocument env since minAge false doc st).2.fs = fs2 ∧
            (processDocument env since minAge false doc st).2.result.newJournals =
              st.result.newJournals + (if added then 1 else 0)
          | .error _ => False))) := by
    intro env since minAge doc st hW hD hA hAge hS hNU
    have heq := processDocument_live_eq env since minAge doc st hD hA hAge hS hNU
    rw [heq]
    have hwp := writeMeetingPage_ok env st.fs doc (hW _)
    cases hn : (GetSyncedDocument st.store doc.id).isNone with
    | false =>
      simp [syncDocument, hwp]
    | true =>
      obtain ⟨added, fs2, hap⟩ := appendJournal_ok env
        (updateFs st.fs
          (env.basePath ++ "/pages/" ++ GetPageFilename env.parseLocal doc)
          (MarkUserTodos (FormatMeetingPage env.parseLocal doc) env.userName))
        doc (hW _)
      cases added with
      | false => simp [syncDocument, hwp, hap]
      | true => simp [syncDocument, hwp, hap]
  refine ⟨main, ?_⟩
  intro env since minAge doc doc2 st hW hD hA hAge hS hNU hid htitle hhash hD2 hA2 hAge2 hS2
  obtain ⟨-, hstore, -, -⟩ := main env since minAge doc st hW hD hA hAge hS hNU
  set st1 := (processDocument env since minAge false doc st).2 with hst1
  have hget : GetSyncedDocument st1.store doc2.id =
      some ⟨doc.id, doc.title, env.now, some doc.updatedAt,
        env.basePath ++ "/pages/" ++ GetPageFilename env.parseLocal doc,
        hashContent doc⟩ := by
    rw [hid, hstore]
    exact GetSyncedDocument_MarkSynced_self st.store _
  have hNU2 : NeedsUpdate st1.store doc2.id doc2.updatedAt (hashContent doc2) = true := by
    rw [NeedsUpdate, hget]
    simp only []
    rw [if_pos (by simpa [bne_iff_ne] using Ne.symm hhash)]
  obtain ⟨-, -, hupd, -⟩ := main env since minAge doc2 st1 hW hD2 hA2 hAge2 hS2 hNU2
  have hn2 : (GetSyncedDocument st1.store doc2.id).isNone = false := by
    rw [hget]
    rfl
  obtain ⟨-, hnm, hum, -⟩ := hupd hn2
  exact ⟨hnm, hum⟩

/-- Witness for C4: a brand-new concrete document is classified new on the
first live sync, and after it a same-id document with changed notes is
classified updated. -/
theorem processDocument_new_vs_update_witness :
    ((processDocument plainEnv none 0 false longTitleDoc
        ⟨emptyFs, [], ⟨0, 0, 0, []⟩⟩).2.result.newMeetings = 0 + 1 ∧
     (processDocument plainEnv none 0 false longTitleDoc
        ⟨emptyFs, [], ⟨0, 0, 0, []⟩⟩).2.result.updatedMeetings = 0) ∧
    ((processDocument plainEnv none 0 false { longTitleDoc with notesPlain := some "x" }
        (processDocument plainEnv none 0 false longTitleDoc
          ⟨emptyFs, [], ⟨0, 0, 0, []⟩⟩).2).2.result.newMeetings =
      (processDocument plainEnv none 0 false longTitleDoc
        ⟨emptyFs, [], ⟨0, 0, 0, []⟩⟩).2.result.newMeetings ∧
     (processDocument plainEnv none 0 false { longTitleDoc with notesPlain := some "x" }
        (processDocument plainEnv none 0 false longTitleDoc
          ⟨emptyFs, [], ⟨0, 0, 0, []⟩⟩).2).2.result.updatedMeetings =
      (processDocument plainEnv none 0 false longTitleDoc
        ⟨emptyFs, [], ⟨0, 0, 0, []⟩⟩).2.result.updatedMeetings + 1) := by
  constructor
  · have h := (processDocument_new_vs_update.1 plainEnv none 0 longTitleDoc
      ⟨emptyFs, [], ⟨0, 0, 0, []⟩⟩ (fun _ => rfl) (by decide) (by decide) (by decide)
      rfl (by decide)).2.2.2 (by decide)
    exact ⟨h.1, h.2.1⟩
  · exact processDocument_new_vs_update.2 plainEnv none 0 longTitleDoc
      { longTitleDoc with notesPlain := some "x" } ⟨emptyFs, [], ⟨0, 0, 0, []⟩⟩
      (fun _ => rfl) (by decide) (by decide) (by decide) rfl (by decide)
      rfl rfl (by decide) (by decide) (by decide) (by decide) rfl

theorem dryRunDocument_errors (env : Env) (doc : Document) (isNew : Bool)
    (st : SyncState) :
    (dryRunDocument env doc isNew st).2.result.errors = st.result.errors := by
  cases isNew with
  | false =>
    by_cases hwa : (DryRunJournalEntry env st.fs doc).2.2 = true
    · simp [dryRunDocument, hwa]
    · simp [dryRunDocument, hwa]
  | true =>
    by_cases hwa : (DryRunJournalEntry env st.fs doc).2.2 = true
    · simp [dryRunDocument, hwa]
    · simp [dryRunDocument, hwa]

theorem syncDocument_errors (env : Env) (doc : Document) (ch : String)
    (isNew : Bool) (st : SyncState) :
    (syncDocument env doc ch isNew st).2.result.errors = st.result.errors := by
  cases hwp : WriteMeetingPage env st.fs doc with
  | error e => simp [syncDocument, hwp]
  | ok pr =>
    obtain ⟨pp, fs1⟩ := pr
    cases isNew with
    | false => simp [syncDocument, hwp]
    | true =>
      cases hap : AppendJournalEntry env fs1 doc with
      | error e => simp [syncDocument, hwp, hap]
      | ok pr2 =>
        obtain ⟨added, fs2⟩ := pr2
        cases added with
        | false => simp [syncDocument, hwp, hap]
        | true => simp [syncDocument, hwp, hap]

theorem processDocument_errors_preserved (env : Env) (since : Option Int)
    (minAge : Int) (dry : Bool) (doc : Document) (st : SyncState) :
    (processDocument env since minAge dry doc st).2.result.errors =
      st.result.errors := by
  rw [processDocument.eq_def]
  by_cases h1 : IsDeleted doc = true
  · rw [if_pos h1]
  · rw [if_neg h1]
    by_cases h2 : (!(IsUserAttendee doc env.userEmail)) = true
    · rw [if_pos h2]
    · rw [if_neg h2]
      by_cases h3 : (!dry && decide (env.now - doc.updatedAt < minAge)) = true
      · rw [if_pos h3]
      · rw [if_neg h3]
        by_cases h4 : (match since with
          | some s => decide ((GetMeetingDate env.parseLocal doc).instant < s)
          | none => false) = true
        · rw [if_pos h4]
        · rw [if_neg h4]
          by_cases h5 : (!(NeedsUpdate st.store doc.id doc.updatedAt (hashContent doc))) = true
          · rw [if_pos h5]
          · rw [if_neg h5]
            by_cases hd : dry = true
            · rw [hd, if_pos rfl]
              exact dryRunDocument_errors env doc _ st
            · have hd' : dry = false := by simpa using hd
              rw [hd', if_neg (by simp)]
              exact syncDocument_errors env doc _ _ st

theorem processStep_errors (env : Env) (since : Option Int) (minAge : Int)
    (dry : Bool) (d : Document) (st : SyncState) :
    ∃ t0, (processStep env since minAge dry st d).result.errors =
      st.result.errors ++ t0 := by
  have herr := processDocument_errors_preserved env since minAge dry d st
  cases hpd : processDocument env since minAge dry d st with
  | mk eo st1 =>
    rw [hpd] at herr
    cases eo with
    | none =>
      refine ⟨[], ?_⟩
      simp only [processStep, hpd]
      simpa using herr
    | some e =>
      refine ⟨["doc " ++ d.id ++ ": " ++ e], ?_⟩
      simp only [processStep, hpd]
      simpa using herr

/-- C7. Error handling of the sync pass: a cache-decode failure aborts the
whole call with a wrapped top-level error and an untouched state (no document
processed, no partial effect); with a successful decode the call always
returns the count summary (`ok`), the document loop continues across any
split of the list, a per-document failure only appends `doc <id>: <err>` to
the error list while keeping the failing call's partial state, a success
keeps the reached state as is, and the error list only ever grows by
appending. -/
theorem sync_error_handling :
    (∀ (e : String) (env : Env) (mas : Int) (since : Option Int) (dry : Bool)
        (st : SyncState),
      Sync (.error e) env mas since dry st = (.error ("parsing cache: " ++ e), st)) ∧
    (∀ (docs : List Document) (env : Env) (mas : Int) (since : Option Int)
        (dry : Bool) (st : SyncState),
      Sync (.ok docs) env mas since dry st =
        (.ok (processAll env since (minAgeNanos mas) dry
            (sortDocumentsByDate env.parseLocal docs) st).result,
         processAll env since (minAgeNanos mas) dry
           (sortDocumentsByDate env.parseLocal docs) st)) ∧
    (∀ (env : Env) (since : Option Int) (minAge : Int) (dry : Bool)
        (l1 l2 : List Document) (st : SyncState),
      processAll env since minAge dry (l1 ++ l2) st =
        processAll env since minAge dry l2 (processAll env since minAge dry l1 st)) ∧
    (∀ (env : Env) (since : Option Int) (minAge : Int) (dry : Bool)
        (d : Document) (st : SyncState),
      processAll env since minAge dry [d] st = processStep env since minAge dry st d ∧
      (∀ e st1, processDocument env since minAge dry d st = (some e, st1) →
        processStep env since minAge dry st d =
          { st1 with result := { st1.result with
              errors := st1.result.errors ++ ["doc " ++ d.id ++ ": " ++ e] } }) ∧
      (∀ st1, processDocument env since minAge dry d st = (none, st1) →
        processStep env since minAge dry st d = st1)) ∧
    (∀ (env : Env) (since : Option Int) (minAge : Int) (dry : Bool)
        (docs : List Document) (st : SyncState),
      ∃ tail, (processAll env since minAge dry docs st).result.errors =
        st.result.errors ++ tail) := by
  refine ⟨fun _ _ _ _ _ _ => rfl, fun _ _ _ _ _ _ => rfl, ?_, ?_, ?_⟩
  · intro env since minAge dry l1 l2 st
    simp [processAll, List.foldl_append]
  · intro env since minAge dry d st
    refine ⟨rfl, ?_, ?_⟩
    · intro e st1 hpd
      simp only [processStep, hpd]
    · intro st1 hpd
      simp only [processStep, hpd]
  · intro env since minAge dry docs st
    induction docs generalizing st with
    | nil => exact ⟨[], by simp [processAll]⟩
    | cons d rest ih =>
      obtain ⟨t0, h0⟩ := processStep_errors env since minAge dry d st
      obtain ⟨t1, h1⟩ := ih (processStep env since minAge dry st d)
      refine ⟨t0 ++ t1, ?_⟩
      have hfold : processAll env since minAge dry (d :: rest) st =
          processAll env since minAge dry rest (processStep env since minAge dry st d) := rfl
      rw [hfold, h1, h0, List.append_assoc]

/-- Witness for C7: for a concrete document and state, a successful
`processDocument` outcome makes the step keep the reached state unchanged. -/
theorem sync_error_handling_witness :
    processStep plainEnv none 0 true ⟨emptyFs, [], ⟨0, 0, 0, []⟩⟩ sampleDoc =
      (processDocument plainEnv none 0 true sampleDoc ⟨emptyFs, [], ⟨0, 0, 0, []⟩⟩).2 :=
  (sync_error_handling.2.2.2.1 plainEnv none 0 true sampleDoc
    ⟨emptyFs, [], ⟨0, 0, 0, []⟩⟩).2.2
    (processDocument plainEnv none 0 true sampleDoc ⟨emptyFs, [], ⟨0, 0, 0, []⟩⟩).2 rfl

end GranolaSync
